import Mathlib

/-!
# Exception-safe stack (`src/2_exception_safe_stack/mystack.hpp`)

A shallow embedding of the class templates `MyStackBuf<T>` and `MyStack<T>`.

* The block behind `buf_` is a map from slot index to slot content; `none` is a
  slot that holds no live object.  The null pointer is the block in which no
  slot holds an object.
* `size_` and `used_` are the two `size_t` members.  `size_ * 2 + 1` and
  `--used_` are computed modulo `2 ^ 64`.
* Each object is a value: a member function takes the receiver and returns the
  receiver as the call leaves it.  Destructors only release storage and have
  no effect on any surviving object, so a local that goes out of scope is
  simply dropped.
* `::operator new` and the copy constructor of `T` are the two operations
  that can throw; both are parameters (`Env`).  Moving a `T` cannot throw
  (`static_assert` in `push`).
* `push` and `append` call each other, so both carry a fuel argument.
* A second transcription of the same members (`Heap`, `InStore`) keeps the blocks in a
  free store and makes `buf_` an address; it is used where a property is about two
  objects sharing or not sharing a block.
-/

namespace ExceptionSafeStack

/-- The modulus of `size_t` arithmetic. -/
def SIZE_MOD : Nat := 2 ^ 64

/-- The largest value of `int` (the loop counter of `append`). -/
def INT_MAX : Nat := 2 ^ 31 - 1

/-- The exceptions that can leave a member function. -/
inductive Exn where
  | runtime_error (what : String)
  | bad_alloc
  | copy_failure
  deriving DecidableEq, Repr

/-- How a call ends.  `σ` is the state the call works on, `β` the returned value. -/
inductive Outcome (σ β : Type) where
  /-- Normal return: final state and returned value. -/
  | ok (s : σ) (v : β)
  /-- An exception propagates to the caller; `s` is the state it leaves behind. -/
  | throws (s : σ) (e : Exn)
  /-- The program is stopped: failed `assert`, or an exception escaping a `noexcept` function. -/
  | aborted
  /-- An object is read from a slot that holds none. -/
  | undefined
  /-- The fuel of the model ran out. -/
  | out_of_fuel

/-- What the element type and the storage provider do. -/
structure Env (α : Type) where
  /-- Whether `::operator new (sz * sizeof(T))` succeeds for the given `sz`. -/
  alloc : Nat → Bool
  /-- The copy constructor of `T`; `none` when it throws. -/
  copy : α → Option α
  /-- The state in which the move constructor of `T` leaves its source. -/
  moved : α → α

/-- A block of slots, addressed by index. -/
abbrev Buf (α : Type) := Nat → Option α

/-- The null pointer: no block, no slot holds an object. -/
def nullptr {α : Type} : Buf α := fun _ => none

/-- A block fresh from `::operator new`: every slot is uninitialised. -/
def fresh_block {α : Type} : Buf α := fun _ => none

/-- Placement construction by move: `new (ptr) T {std::move(rhs)}`. -/
def construct_at {α : Type} (buf : Buf α) (i : Nat) (rhs : α) : Buf α :=
  Function.update buf i (some rhs)

/-- Placement construction by copy: `new (ptr) T {rhs}`; `none` when the copy throws. -/
def construct_at_copy {α : Type} (env : Env α) (buf : Buf α) (i : Nat) (rhs : α) :
    Option (Buf α) :=
  match env.copy rhs with
  | some v => some (Function.update buf i (some v))
  | none => none

/-- The destructor call `ptr->~T()`: afterwards the slot holds no object. -/
def destroy_at {α : Type} (buf : Buf α) (i : Nat) : Buf α :=
  Function.update buf i none

/-- The members of `MyStackBuf<T>`. -/
structure MyStackBuf (α : Type) where
  buf_ : Buf α
  size_ : Nat
  used_ : Nat

/-- The class `MyStack<T>` adds no member to its base `MyStackBuf<T>`. -/
abbrev MyStack (α : Type) := MyStackBuf α

namespace MyStackBuf

variable {α : Type}

/-- The constructor `MyStackBuf(size_t sz)`. -/
def ctor (env : Env α) (sz : Nat) : Outcome Unit (MyStackBuf α) :=
  if sz = 0 then .ok () { buf_ := nullptr, size_ := sz, used_ := 0 }
  else if env.alloc sz then .ok () { buf_ := fresh_block, size_ := sz, used_ := 0 }
  else .throws () .bad_alloc

/-- The move constructor `MyStackBuf(MyStackBuf&& rhs)`: the new object and `rhs` afterwards. -/
def move_ctor (rhs : MyStackBuf α) : MyStackBuf α × MyStackBuf α :=
  ({ buf_ := rhs.buf_, size_ := rhs.size_, used_ := rhs.used_ },
   { buf_ := nullptr, size_ := 0, used_ := 0 })

/-- The move assignment `operator= (MyStackBuf&& rhs)`: three member swaps.
Returns the receiver and `rhs` afterwards. -/
def move_assign (self rhs : MyStackBuf α) : MyStackBuf α × MyStackBuf α :=
  ({ buf_ := rhs.buf_, size_ := rhs.size_, used_ := rhs.used_ },
   { buf_ := self.buf_, size_ := self.size_, used_ := self.used_ })

end MyStackBuf

namespace MyStack

variable {α : Type}

/-- The constructor `explicit MyStack(size_t size = 0)`. -/
def ctor (env : Env α) (size : Nat) : Outcome Unit (MyStack α) :=
  MyStackBuf.ctor env size

/-- The default-constructed stack `MyStack<T> s;` (`size = 0`, nothing is allocated). -/
def default : MyStack α := { buf_ := nullptr, size_ := 0, used_ := 0 }

/-- The defaulted move constructor `MyStack(MyStack&& rhs)`. -/
def move_ctor (rhs : MyStack α) : MyStack α × MyStack α :=
  MyStackBuf.move_ctor rhs

/-- The defaulted move assignment `operator= (MyStack&& rhs)`. -/
def move_assign (self rhs : MyStack α) : MyStack α × MyStack α :=
  MyStackBuf.move_assign self rhs

/-- The call `std::swap(a, b)` on two stacks:
`T t(std::move(a)); a = std::move(b); b = std::move(t);`. -/
def swap (a b : MyStack α) : MyStack α × MyStack α :=
  let (t, a1) := move_ctor a
  let (a2, b1) := move_assign a1 b
  let (b2, _) := move_assign b1 t
  (a2, b2)

def size (s : MyStack α) : Nat := s.used_

def capacity (s : MyStack α) : Nat := s.size_

def empty (s : MyStack α) : Bool := s.used_ == 0

/-- The loop of the copy constructor,
`for (; used_ < rhs.used_; ++used_) construct_at(buf_ + used_, rhs.buf_[used_]);`,
with the number of rounds still allowed. -/
def copy_loop (env : Env α) (rhs : MyStack α) : Nat → MyStack α → Outcome Unit (MyStack α)
  | 0, s => if s.used_ < rhs.used_ then .out_of_fuel else .ok () s
  | n + 1, s =>
    if s.used_ < rhs.used_ then
      match rhs.buf_ s.used_ with
      | none => .undefined
      | some v =>
        match construct_at_copy env s.buf_ s.used_ v with
        | none => .throws () .copy_failure
        | some b => copy_loop env rhs n { s with buf_ := b, used_ := s.used_ + 1 }
    else .ok () s

/-- The copy constructor `MyStack(const MyStack& rhs)`. -/
def copy_ctor (env : Env α) (rhs : MyStack α) : Outcome Unit (MyStack α) :=
  match MyStackBuf.ctor env rhs.used_ with
  | .ok _ s => copy_loop env rhs rhs.used_ s
  | .throws _ e => .throws () e
  | .aborted => .aborted
  | .undefined => .undefined
  | .out_of_fuel => .out_of_fuel

/-- The copy assignment `operator= (const MyStack& rhs)`. -/
def copy_assign (env : Env α) (self rhs : MyStack α) : Outcome (MyStack α) Unit :=
  match copy_ctor env rhs with
  | .ok _ tmp => .ok (swap self tmp).1 ()
  | .throws _ e => .throws self e
  | .aborted => .aborted
  | .undefined => .undefined
  | .out_of_fuel => .out_of_fuel

mutual

/-- The member `void push(T&& x)`. -/
def push (env : Env α) : Nat → MyStack α → α → Outcome (MyStack α) Unit
  | 0, _, _ => .out_of_fuel
  | fuel + 1, s, x =>
    if ¬ s.used_ ≤ s.size_ then .aborted
    else if s.used_ = s.size_ then
      match ctor env ((s.size_ * 2 + 1) % SIZE_MOD) with
      | .ok _ tmp =>
        match append_loop env fuel tmp s 0 with
        | .ok (tmp1, s1) _ =>
          match push env fuel tmp1 x with
          | .ok tmp2 _ => .ok (swap s1 tmp2).1 ()
          | .throws _ e => .throws s1 e
          | .aborted => .aborted
          | .undefined => .undefined
          | .out_of_fuel => .out_of_fuel
        | .throws _ _ => .aborted
        | .aborted => .aborted
        | .undefined => .undefined
        | .out_of_fuel => .out_of_fuel
      | .throws _ e => .throws s e
      | .aborted => .aborted
      | .undefined => .undefined
      | .out_of_fuel => .out_of_fuel
    else
      .ok { s with buf_ := construct_at s.buf_ s.used_ x, used_ := s.used_ + 1 } ()

/-- The loop of `append`, `for (int i = 0; i < used_; ++i) push(std::move(rhs.buf_[i]));`,
from counter value `i`.  The state is the receiver paired with `rhs`; the two are distinct
objects (a call `s.append(std::move(s))` is outside this definition). -/
def append_loop (env : Env α) :
    Nat → MyStack α → MyStack α → Nat → Outcome (MyStack α × MyStack α) Unit
  | 0, s, rhs, i => if i < s.used_ then .out_of_fuel else .ok (s, rhs) ()
  | fuel + 1, s, rhs, i =>
    if i < s.used_ then
      match rhs.buf_ i with
      | none => .undefined
      | some x =>
        match push env fuel s x with
        | .ok s1 _ =>
          if i + 1 ≤ INT_MAX then
            append_loop env fuel s1
              { rhs with buf_ := Function.update rhs.buf_ i (some (env.moved x)) } (i + 1)
          else .undefined
        | .throws _ _ => .aborted
        | .aborted => .aborted
        | .undefined => .undefined
        | .out_of_fuel => .out_of_fuel
    else .ok (s, rhs) ()

end

/-- The member `void append(MyStack&& rhs) noexcept`, for `rhs` an object other than the
receiver. -/
def append (env : Env α) (fuel : Nat) (self rhs : MyStack α) :
    Outcome (MyStack α × MyStack α) Unit :=
  append_loop env fuel self rhs 0

/-- The member `void push(const T& x) noexcept`: `T tmp {x}; push(std::move(tmp));`. -/
def push_copy (env : Env α) (fuel : Nat) (s : MyStack α) (x : α) : Outcome (MyStack α) Unit :=
  match env.copy x with
  | none => .aborted
  | some tmp =>
    match push env fuel s tmp with
    | .ok s1 _ => .ok s1 ()
    | .throws _ _ => .aborted
    | .aborted => .aborted
    | .undefined => .undefined
    | .out_of_fuel => .out_of_fuel

/-- The member `T top() const`; the returned value is a copy of the top slot. -/
def top (env : Env α) (s : MyStack α) : Outcome (MyStack α) α :=
  if empty s then .throws s (.runtime_error "Attempt to top empty stack")
  else
    match s.buf_ (s.used_ - 1) with
    | none => .undefined
    | some v =>
      match env.copy v with
      | none => .throws s .copy_failure
      | some w => .ok s w

/-- The block `if (size_ && used_ < size_ / 2) { ... }` of `pop`. -/
def pop_shrink (env : Env α) (fuel : Nat) (s : MyStack α) : Outcome (MyStack α) Unit :=
  if s.size_ ≠ 0 ∧ s.used_ < s.size_ / 2 then
    match ctor env (s.size_ / 2) with
    | .ok _ tmp =>
      match append env fuel tmp s with
      | .ok (tmp1, s1) _ => .ok (swap s1 tmp1).1 ()
      | .throws _ _ => .aborted
      | .aborted => .aborted
      | .undefined => .undefined
      | .out_of_fuel => .out_of_fuel
    | .throws _ e => .throws s e
    | .aborted => .aborted
    | .undefined => .undefined
    | .out_of_fuel => .out_of_fuel
  else .ok s ()

/-- The member `void pop()`. -/
def pop (env : Env α) (fuel : Nat) (s : MyStack α) : Outcome (MyStack α) Unit :=
  if empty s then .throws s (.runtime_error "Attempt to pop empty stack")
  else
    match pop_shrink env fuel s with
    | .ok s1 _ =>
      let used1 := (s1.used_ + SIZE_MOD - 1) % SIZE_MOD
      .ok { s1 with used_ := used1, buf_ := destroy_at s1.buf_ used1 } ()
    | .throws s1 e => .throws s1 e
    | .aborted => .aborted
    | .undefined => .undefined
    | .out_of_fuel => .out_of_fuel

/-- The slots `0 .. used_ - 1`, bottom first. -/
def elems (s : MyStack α) : List (Option α) :=
  (List.range s.used_).map s.buf_

/-- A client that pushes the values of `xs` one by one with `push(T&&)`. -/
def push_all (env : Env α) (fuel : Nat) : MyStack α → List α → Outcome (MyStack α) Unit
  | s, [] => .ok s ()
  | s, x :: xs =>
    match push env fuel s x with
    | .ok s1 _ => push_all env fuel s1 xs
    | .throws s1 e => .throws s1 e
    | .aborted => .aborted
    | .undefined => .undefined
    | .out_of_fuel => .out_of_fuel

/-- A client that runs `while (!s.empty()) { v = s.top(); s.pop(); }` for at most `n`
rounds and returns the values it read, first read first. -/
def drain (env : Env α) (fuel : Nat) : Nat → MyStack α → Outcome (MyStack α) (List α)
  | 0, s => if empty s then .ok s [] else .out_of_fuel
  | n + 1, s =>
    if empty s then .ok s []
    else
      match top env s with
      | .ok s1 v =>
        match pop env fuel s1 with
        | .ok s2 _ =>
          match drain env fuel n s2 with
          | .ok s3 vs => .ok s3 (v :: vs)
          | .throws s3 e => .throws s3 e
          | .aborted => .aborted
          | .undefined => .undefined
          | .out_of_fuel => .out_of_fuel
        | .throws s2 e => .throws s2 e
        | .aborted => .aborted
        | .undefined => .undefined
        | .out_of_fuel => .out_of_fuel
      | .throws s1 e => .throws s1 e
      | .aborted => .aborted
      | .undefined => .undefined
      | .out_of_fuel => .out_of_fuel

/-- A client that pushes `xs` onto a default-constructed stack and then drains it. -/
def push_then_drain (env : Env α) (fuel : Nat) (xs : List α) : Outcome (MyStack α) (List α) :=
  match push_all env fuel default xs with
  | .ok s _ => drain env fuel xs.length s
  | .throws s e => .throws s e
  | .aborted => .aborted
  | .undefined => .undefined
  | .out_of_fuel => .out_of_fuel

end MyStack

namespace Outcome

variable {σ β : Type}

/-- The final state of a call that returned normally. -/
def returned? : Outcome σ β → Option σ
  | .ok s _ => some s
  | _ => none

/-- The value of a call that returned normally. -/
def value? : Outcome σ β → Option β
  | .ok _ v => some v
  | _ => none

/-- Whether the call ended by an exception that reached the caller. -/
def propagates : Outcome σ β → Bool
  | .throws _ _ => true
  | _ => false

end Outcome

/-- The stacks that a client can reach from a default-constructed stack by calls of
`push` (either overload) and `pop` that return normally. -/
inductive Reachable {α : Type} (env : Env α) : MyStack α → Prop where
  | init : Reachable env MyStack.default
  | push (fuel : Nat) (s : MyStack α) (x : α) (s' : MyStack α) :
      Reachable env s → MyStack.push env fuel s x = .ok s' () → Reachable env s'
  | push_copy (fuel : Nat) (s : MyStack α) (x : α) (s' : MyStack α) :
      Reachable env s → MyStack.push_copy env fuel s x = .ok s' () → Reachable env s'
  | pop (fuel : Nat) (s s' : MyStack α) :
      Reachable env s → MyStack.pop env fuel s = .ok s' () → Reachable env s'

/-- An element type like `int` on a machine that never runs out of memory:
every allocation succeeds, copies are exact and never throw, a moved-from
value keeps its value. -/
def int_env : Env Nat := { alloc := fun _ => true, copy := some, moved := id }

/-- The same element type on a machine whose storage provider refuses every request. -/
def oom_env : Env Nat := { alloc := fun _ => false, copy := some, moved := id }

/-- The stack after `MyStack<int> s(8); s.push(7);`. -/
def one_of_eight : MyStack Nat :=
  { buf_ := construct_at fresh_block 0 7, size_ := 8, used_ := 1 }

/-- The stack after `MyStack<int> s; s.push(7);`. -/
def one_of_one : MyStack Nat :=
  { buf_ := construct_at fresh_block 0 7, size_ := 1, used_ := 1 }

/-- The stack after `MyStack<int> s(3); s.push(3); s.push(4);`. -/
def two_of_three : MyStack Nat :=
  { buf_ := construct_at (construct_at fresh_block 0 3) 1 4, size_ := 3, used_ := 2 }

/-- An element type whose copy constructor throws on the value `4` and on nothing else. -/
def throwing_env : Env Nat :=
  { alloc := fun _ => true, copy := fun v => if v = 4 then none else some v, moved := id }

/-- The stack after `MyStack<int> s(8); s.push(1); s.push(2); s.push(3); s.push(4);`. -/
def four_of_eight : MyStack Nat :=
  { buf_ := construct_at (construct_at (construct_at (construct_at fresh_block 0 1) 1 2) 2 3) 3 4,
    size_ := 8, used_ := 4 }

/-- The stack after `MyStack<int> s;` and the five calls `s.push(1)` ... `s.push(5)`. -/
def one_of_seven : MyStack Nat :=
  { buf_ := construct_at fresh_block 0 5, size_ := 7, used_ := 1 }

/-! ## The members with the buffer in a free store

In the definitions above a stack carries the contents of its block.  Below, `buf_` is an
address and the blocks live in a free store shared by all objects, so that two objects
whose `buf_` members are equal share one block.  The members are transcribed from the
same source lines. -/

/-- The free store.  `cell p` is the block that starts at address `p`, when one is
allocated there.  Address 0 is the null pointer; `next` is the address that the next
successful `::operator new` returns. -/
structure Heap (α : Type) where
  cell : Nat → Option (Buf α)
  next : Nat

namespace Heap

variable {α : Type}

/-- The call `::operator new (sz * sizeof(T))`: `none` when the request is refused, else the
store with one more block, all of whose slots are uninitialised, and the address of that
block. -/
def operator_new (env : Env α) (h : Heap α) (sz : Nat) : Option (Heap α × Nat) :=
  if env.alloc sz then
    some ({ cell := Function.update h.cell h.next (some fresh_block), next := h.next + 1 }, h.next)
  else none

/-- The call `::operator delete (p)`; deleting the null pointer does nothing. -/
def operator_delete (h : Heap α) (p : Nat) : Heap α :=
  if p = 0 then h else { h with cell := Function.update h.cell p none }

/-- The object read by `p[i]`; `none` when there is no block at `p` or slot `i` holds no
object. -/
def load (h : Heap α) (p i : Nat) : Option α :=
  match h.cell p with
  | some b => b i
  | none => none

/-- The call `tndrd::construct_at(p + i, std::move(x))`; `none` when there is no block
at `p`. -/
def construct_at (h : Heap α) (p i : Nat) (x : α) : Option (Heap α) :=
  match h.cell p with
  | some b =>
    some { h with cell := Function.update h.cell p (some (ExceptionSafeStack.construct_at b i x)) }
  | none => none

/-- The call `tndrd::destroy_at(p + i)`: afterwards the slot holds no object. -/
def destroy_at (h : Heap α) (p i : Nat) : Heap α :=
  match h.cell p with
  | some b =>
    { h with cell := Function.update h.cell p (some (ExceptionSafeStack.destroy_at b i)) }
  | none => h

/-- The call `tndrd::destroy(p + first, p + last)`: the slots `first .. last - 1` of the
block at `p` hold no object afterwards. -/
def destroy (h : Heap α) (p first last : Nat) : Heap α :=
  match h.cell p with
  | some b =>
    { h with cell :=
        Function.update h.cell p (some (fun i => if first ≤ i ∧ i < last then none else b i)) }
  | none => h

/-- What `std::move(p[i])` leaves in slot `i` once `push` has moved the object `x` out
of it. -/
def leave_moved (env : Env α) (h : Heap α) (p i : Nat) (x : α) : Heap α :=
  match h.cell p with
  | some b =>
    { h with cell := Function.update h.cell p (some (Function.update b i (some (env.moved x)))) }
  | none => h

end Heap

namespace InStore

/-- The members of `MyStackBuf<T>`, with `buf_` an address in the free store. -/
structure MyStackBuf where
  buf_ : Nat
  size_ : Nat
  used_ : Nat
  deriving DecidableEq, Repr

/-- The class `MyStack<T>` adds no member to its base. -/
abbrev MyStack := MyStackBuf

variable {α : Type}

/-- The constructor `MyStackBuf(size_t sz)`. -/
def ctor (env : Env α) (h : Heap α) (sz : Nat) : Outcome (Heap α) MyStack :=
  if sz = 0 then .ok h { buf_ := 0, size_ := sz, used_ := 0 }
  else
    match Heap.operator_new env h sz with
    | some (h1, p) => .ok h1 { buf_ := p, size_ := sz, used_ := 0 }
    | none => .throws h .bad_alloc

/-- The destructor `~MyStackBuf()`: `destroy(buf_, buf_ + used_)`, then
`::operator delete (buf_)`. -/
def dtor (h : Heap α) (s : MyStack) : Heap α :=
  Heap.operator_delete (Heap.destroy h s.buf_ 0 s.used_) s.buf_

/-- The move constructor: the new object and `rhs` afterwards. -/
def move_ctor (rhs : MyStack) : MyStack × MyStack :=
  ({ buf_ := rhs.buf_, size_ := rhs.size_, used_ := rhs.used_ },
   { buf_ := 0, size_ := 0, used_ := 0 })

/-- The move assignment: three member swaps.  The receiver and `rhs` afterwards. -/
def move_assign (self rhs : MyStack) : MyStack × MyStack :=
  ({ buf_ := rhs.buf_, size_ := rhs.size_, used_ := rhs.used_ },
   { buf_ := self.buf_, size_ := self.size_, used_ := self.used_ })

/-- The call `std::swap(a, b)`: `T t(std::move(a)); a = std::move(b); b = std::move(t);`
and then the destructor of `t`. -/
def swap (h : Heap α) (a b : MyStack) : Heap α × MyStack × MyStack :=
  let (t, a1) := move_ctor a
  let (a2, b1) := move_assign a1 b
  let (b2, t1) := move_assign b1 t
  (dtor h t1, a2, b2)

def size (s : MyStack) : Nat := s.used_

def capacity (s : MyStack) : Nat := s.size_

def empty (s : MyStack) : Bool := s.used_ == 0

/-- The loop of the copy constructor,
`for (; used_ < rhs.used_; ++used_) construct_at(buf_ + used_, rhs.buf_[used_]);`,
with the number of rounds still allowed.  When the copy of an element throws, the
destructor of the base releases the new block. -/
def copy_loop (env : Env α) (rhs : MyStack) : Nat → Heap α → MyStack → Outcome (Heap α) MyStack
  | 0, h, s => if s.used_ < rhs.used_ then .out_of_fuel else .ok h s
  | n + 1, h, s =>
    if s.used_ < rhs.used_ then
      match Heap.load h rhs.buf_ s.used_ with
      | none => .undefined
      | some v =>
        match env.copy v with
        | none => .throws (dtor h s) .copy_failure
        | some w =>
          match Heap.construct_at h s.buf_ s.used_ w with
          | none => .undefined
          | some h1 => copy_loop env rhs n h1 { s with used_ := s.used_ + 1 }
    else .ok h s

/-- The copy constructor `MyStack(const MyStack& rhs)`. -/
def copy_ctor (env : Env α) (h : Heap α) (rhs : MyStack) : Outcome (Heap α) MyStack :=
  match ctor env h rhs.used_ with
  | .ok h1 s => copy_loop env rhs rhs.used_ h1 s
  | .throws h1 e => .throws h1 e
  | .aborted => .aborted
  | .undefined => .undefined
  | .out_of_fuel => .out_of_fuel

/-- The copy assignment `operator= (const MyStack& rhs)`:
`MyStack tmp {rhs}; std::swap(*this, tmp);` and then the destructor of `tmp`. -/
def copy_assign (env : Env α) (h : Heap α) (self rhs : MyStack) :
    Outcome (Heap α × MyStack) Unit :=
  match copy_ctor env h rhs with
  | .ok h1 tmp =>
    match swap h1 self tmp with
    | (h2, self1, tmp1) => .ok (dtor h2 tmp1, self1) ()
  | .throws h1 e => .throws (h1, self) e
  | .aborted => .aborted
  | .undefined => .undefined
  | .out_of_fuel => .out_of_fuel

mutual

/-- The member `void push(T&& x)`. -/
def push (env : Env α) : Nat → Heap α → MyStack → α → Outcome (Heap α × MyStack) Unit
  | 0, _, _, _ => .out_of_fuel
  | fuel + 1, h, s, x =>
    if ¬ s.used_ ≤ s.size_ then .aborted
    else if s.used_ = s.size_ then
      match ctor env h ((s.size_ * 2 + 1) % SIZE_MOD) with
      | .ok h1 tmp =>
        match append_loop env fuel h1 tmp s 0 with
        | .ok (h2, tmp1, s1) _ =>
          match push env fuel h2 tmp1 x with
          | .ok (h3, tmp2) _ =>
            match swap h3 s1 tmp2 with
            | (h4, s2, tmp3) => .ok (dtor h4 tmp3, s2) ()
          | .throws (h3, tmp2) e => .throws (dtor h3 tmp2, s1) e
          | .aborted => .aborted
          | .undefined => .undefined
          | .out_of_fuel => .out_of_fuel
        | .throws _ _ => .aborted
        | .aborted => .aborted
        | .undefined => .undefined
        | .out_of_fuel => .out_of_fuel
      | .throws h1 e => .throws (h1, s) e
      | .aborted => .aborted
      | .undefined => .undefined
      | .out_of_fuel => .out_of_fuel
    else
      match Heap.construct_at h s.buf_ s.used_ x with
      | some h1 => .ok (h1, { s with used_ := s.used_ + 1 }) ()
      | none => .undefined

/-- The loop of `append`, `for (int i = 0; i < used_; ++i) push(std::move(rhs.buf_[i]));`,
from counter value `i`.  The receiver and `rhs` are two objects. -/
def append_loop (env : Env α) :
    Nat → Heap α → MyStack → MyStack → Nat → Outcome (Heap α × MyStack × MyStack) Unit
  | 0, h, s, rhs, i => if i < s.used_ then .out_of_fuel else .ok (h, s, rhs) ()
  | fuel + 1, h, s, rhs, i =>
    if i < s.used_ then
      match Heap.load h rhs.buf_ i with
      | none => .undefined
      | some x =>
        match push env fuel h s x with
        | .ok (h1, s1) _ =>
          if i + 1 ≤ INT_MAX then
            append_loop env fuel (Heap.leave_moved env h1 rhs.buf_ i x) s1 rhs (i + 1)
          else .undefined
        | .throws _ _ => .aborted
        | .aborted => .aborted
        | .undefined => .undefined
        | .out_of_fuel => .out_of_fuel
    else .ok (h, s, rhs) ()

end

/-- The member `void append(MyStack&& rhs) noexcept`. -/
def append (env : Env α) (fuel : Nat) (h : Heap α) (self rhs : MyStack) :
    Outcome (Heap α × MyStack × MyStack) Unit :=
  append_loop env fuel h self rhs 0

/-- The block `if (size_ && used_ < size_ / 2) { ... }` of `pop`; `tmp` is destroyed at
the end of the block. -/
def pop_shrink (env : Env α) (fuel : Nat) (h : Heap α) (s : MyStack) :
    Outcome (Heap α × MyStack) Unit :=
  if s.size_ ≠ 0 ∧ s.used_ < s.size_ / 2 then
    match ctor env h (s.size_ / 2) with
    | .ok h1 tmp =>
      match append env fuel h1 tmp s with
      | .ok (h2, tmp1, s1) _ =>
        match swap h2 s1 tmp1 with
        | (h3, s2, tmp2) => .ok (dtor h3 tmp2, s2) ()
      | .throws _ _ => .aborted
      | .aborted => .aborted
      | .undefined => .undefined
      | .out_of_fuel => .out_of_fuel
    | .throws h1 e => .throws (h1, s) e
    | .aborted => .aborted
    | .undefined => .undefined
    | .out_of_fuel => .out_of_fuel
  else .ok (h, s) ()

/-- The member `void pop()`. -/
def pop (env : Env α) (fuel : Nat) (h : Heap α) (s : MyStack) : Outcome (Heap α × MyStack) Unit :=
  if empty s then .throws (h, s) (.runtime_error "Attempt to pop empty stack")
  else
    match pop_shrink env fuel h s with
    | .ok (h1, s1) _ =>
      let used1 := (s1.used_ + SIZE_MOD - 1) % SIZE_MOD
      .ok (Heap.destroy_at h1 s1.buf_ used1, { s1 with used_ := used1 }) ()
    | .throws st e => .throws st e
    | .aborted => .aborted
    | .undefined => .undefined
    | .out_of_fuel => .out_of_fuel

/-- The slots `0 .. used_ - 1` of the block of `s`, bottom first. -/
def elems (h : Heap α) (s : MyStack) : List (Option α) :=
  (List.range s.used_).map (Heap.load h s.buf_)

end InStore

/-- The state in which a call leaves what it works on, whether it returned or threw. -/
def Outcome.final? {σ β : Type} : Outcome σ β → Option σ
  | .ok s _ => some s
  | .throws s _ => some s
  | _ => none

/-- The stack `s` does not own the block at address `b`: no block sits at the null
address, `b` is null or was handed out by the allocator, and `buf_` of `s` is null or
differs from `b`. -/
def InStore.apart {α : Type} (b : Nat) (h : Heap α) (s : InStore.MyStack) : Prop :=
  h.cell 0 = none ∧ b < h.next ∧ (s.buf_ = 0 ∨ s.buf_ ≠ b)

/-- A client that mutates one stack by a sequence of calls, `some x` for `push(x)` and
`none` for `pop()`, going on after a call that threw; `none` when a call neither returns
nor throws. -/
def InStore.mutate {α : Type} (env : Env α) (fuel : Nat) :
    Heap α × InStore.MyStack → List (Option α) → Option (Heap α × InStore.MyStack)
  | st, [] => some st
  | st, some x :: ops =>
    match (InStore.push env fuel st.1 st.2 x).final? with
    | some st1 => InStore.mutate env fuel st1 ops
    | none => none
  | st, none :: ops =>
    match (InStore.pop env fuel st.1 st.2).final? with
    | some st1 => InStore.mutate env fuel st1 ops
    | none => none

/-- A free store with two blocks: at address 1 the block of `MyStack<int> o(3)` after
`o.push(3); o.push(4);`, at address 2 the block of `MyStack<int> c(8)` after `c.push(7);`. -/
def two_blocks : Heap Nat :=
  { cell := fun p =>
      if p = 1 then some (construct_at (construct_at fresh_block 0 3) 1 4)
      else if p = 2 then some (construct_at fresh_block 0 7)
      else none,
    next := 3 }

/-- The object `o` of `two_blocks`. -/
def obj_o : InStore.MyStack := { buf_ := 1, size_ := 3, used_ := 2 }

/-- The object `c` of `two_blocks`. -/
def obj_c : InStore.MyStack := { buf_ := 2, size_ := 8, used_ := 1 }

/-! ## Helper lemmas -/

namespace MyStack

variable {α : Type}

theorem grown_size_ne_zero (c : Nat) : (c * 2 + 1) % SIZE_MOD ≠ 0 := by
  unfold SIZE_MOD
  omega

theorem swap_eq (a b : MyStack α) : swap a b = (b, a) := rfl

/-- The branch of `push` taken when the buffer has a free slot. -/
theorem push_spare (env : Env α) (fuel : Nat) (s : MyStack α) (x : α)
    (h : s.used_ < s.size_) :
    push env (fuel + 1) s x =
      .ok { s with buf_ := construct_at s.buf_ s.used_ x, used_ := s.used_ + 1 } () := by
  have h1 : s.used_ ≤ s.size_ := Nat.le_of_lt h
  have h2 : s.used_ ≠ s.size_ := Nat.ne_of_lt h
  simp [push, h1, h2]

/-- The branch of `push` taken when the buffer is full and the grown buffer is allocated. -/
theorem push_full (env : Env α) (fuel : Nat) (s : MyStack α) (x : α)
    (h : s.used_ = s.size_) (ha : env.alloc ((s.size_ * 2 + 1) % SIZE_MOD) = true) :
    push env (fuel + 2) s x =
      .ok { buf_ := construct_at fresh_block 0 x,
            size_ := (s.size_ * 2 + 1) % SIZE_MOD, used_ := 1 } () := by
  have hz := grown_size_ne_zero s.size_
  have hz2 : ¬ (0 = (s.size_ * 2 + 1) % SIZE_MOD) := fun e => hz e.symm
  simp [push, append_loop, ctor, MyStackBuf.ctor, h, ha, hz, hz2, swap_eq]

/-- The branch of `push` taken when the buffer is full and the allocation fails. -/
theorem push_full_bad_alloc (env : Env α) (fuel : Nat) (s : MyStack α) (x : α)
    (h : s.used_ = s.size_) (ha : env.alloc ((s.size_ * 2 + 1) % SIZE_MOD) = false) :
    push env (fuel + 1) s x = .throws s .bad_alloc := by
  have hz := grown_size_ne_zero s.size_
  simp [push, ctor, MyStackBuf.ctor, h, ha, hz]

/-- The copy loop stops with the copy failure as soon as it reaches an element
whose copy constructor throws. -/
theorem copy_loop_throws (env : Env α) (rhs : MyStack α)
    (hlive : ∀ i, i < rhs.used_ → ∃ v, rhs.buf_ i = some v) :
    ∀ (n : Nat) (s : MyStack α), s.used_ + n = rhs.used_ →
      (∃ i, s.used_ ≤ i ∧ i < rhs.used_ ∧ ∃ v, rhs.buf_ i = some v ∧ env.copy v = none) →
      copy_loop env rhs n s = .throws () .copy_failure := by
  intro n
  induction n with
  | zero =>
    intro s hn hf
    obtain ⟨i, h1, h2, _⟩ := hf
    omega
  | succ n ih =>
    intro s hn hf
    have hlt : s.used_ < rhs.used_ := by omega
    obtain ⟨v, hv⟩ := hlive s.used_ hlt
    cases hc : env.copy v with
    | none => simp [copy_loop, hlt, hv, construct_at_copy, hc]
    | some w =>
      simp only [copy_loop, hlt, hv, construct_at_copy, hc, if_true]
      apply ih
      · show s.used_ + 1 + n = rhs.used_
        omega
      · obtain ⟨i, h1, h2, u, hu, hcu⟩ := hf
        refine ⟨i, ?_, h2, u, hu, hcu⟩
        show s.used_ + 1 ≤ i
        rcases Nat.eq_or_lt_of_le h1 with heq | hlt2
        · exfalso
          rw [← heq, hv] at hu
          cases hu
          rw [hc] at hcu
          cases hcu
        · exact hlt2

/-- The copy loop, when every copy succeeds and is exact, fills the slots
`used_ .. rhs.used_ - 1` with the contents of the same slots of `rhs`. -/
theorem copy_loop_ok (env : Env α) (rhs : MyStack α)
    (hdup : ∀ i, i < rhs.used_ → ∃ v, rhs.buf_ i = some v ∧ env.copy v = some v) :
    ∀ (n : Nat) (s : MyStack α), s.used_ + n = rhs.used_ →
      ∃ t, copy_loop env rhs n s = .ok () t ∧ t.used_ = rhs.used_ ∧ t.size_ = s.size_ ∧
        (∀ i, i < s.used_ → t.buf_ i = s.buf_ i) ∧
        (∀ i, s.used_ ≤ i → i < rhs.used_ → t.buf_ i = rhs.buf_ i) := by
  intro n
  induction n with
  | zero =>
    intro s hn
    have hnlt : ¬ s.used_ < rhs.used_ := by omega
    refine ⟨s, by simp [copy_loop, hnlt], by omega, rfl, fun _ _ => rfl, ?_⟩
    intro i h1 h2
    omega
  | succ n ih =>
    intro s hn
    have hlt : s.used_ < rhs.used_ := by omega
    obtain ⟨v, hv, hc⟩ := hdup s.used_ hlt
    obtain ⟨t, ht, hu, hs, hlo, hhi⟩ :=
      ih { s with buf_ := Function.update s.buf_ s.used_ (some v), used_ := s.used_ + 1 }
        (by show s.used_ + 1 + n = rhs.used_; omega)
    refine ⟨t, ?_, hu, hs, ?_, ?_⟩
    · simp only [copy_loop, hlt, hv, construct_at_copy, hc, if_true]
      exact ht
    · intro i hi
      have h := hlo i (by show i < s.used_ + 1; omega)
      rw [h]
      show Function.update s.buf_ s.used_ (some v) i = s.buf_ i
      exact Function.update_noteq (Nat.ne_of_lt hi) _ _
    · intro i h1 h2
      rcases Nat.eq_or_lt_of_le h1 with heq | hlt2
      · have h := hlo i (by show i < s.used_ + 1; omega)
        rw [h, ← heq, hv]
        show Function.update s.buf_ s.used_ (some v) s.used_ = some v
        exact Function.update_same _ _ _
      · exact hhi i hlt2 h2

theorem one_of_eight_reachable :
    ∃ s : MyStack Nat, ctor int_env 8 = .ok () s ∧ push int_env 1 s 7 = .ok one_of_eight () :=
  ⟨_, rfl, rfl⟩

theorem one_of_one_reachable : push int_env 2 default 7 = .ok one_of_one () := rfl

theorem two_of_three_reachable :
    ∃ s s1 : MyStack Nat, ctor int_env 3 = .ok () s ∧ push int_env 1 s 3 = .ok s1 () ∧
      push int_env 1 s1 4 = .ok two_of_three () :=
  ⟨_, _, rfl, rfl, rfl⟩

theorem two_of_three_live :
    ∀ i, i < two_of_three.used_ → ∃ v, two_of_three.buf_ i = some v := by
  intro i hi
  have h2 : i < 2 := hi
  interval_cases i
  · exact ⟨3, rfl⟩
  · exact ⟨4, rfl⟩

theorem two_of_three_dup :
    ∀ i, i < two_of_three.used_ →
      ∃ v, two_of_three.buf_ i = some v ∧ int_env.copy v = some v := by
  intro i hi
  have h2 : i < 2 := hi
  interval_cases i
  · exact ⟨3, rfl, rfl⟩
  · exact ⟨4, rfl, rfl⟩

theorem four_of_eight_reachable :
    ∃ s : MyStack Nat, ctor int_env 8 = .ok () s ∧
      push_all int_env 1 s [1, 2, 3, 4] = .ok four_of_eight () :=
  ⟨_, rfl, rfl⟩

/-- The loop of `append` is over as soon as the counter is not below the receiver's `used_`. -/
theorem append_loop_done (env : Env α) (fuel : Nat) (s rhs : MyStack α) (i : Nat)
    (h : ¬ i < s.used_) : append_loop env fuel s rhs i = .ok (s, rhs) () := by
  cases fuel <;> simp [append_loop, h]

/-- The copy constructor, when the buffer is allocated and every copy succeeds and is exact. -/
theorem copy_ctor_ok (env : Env α) (rhs : MyStack α)
    (halloc : rhs.used_ ≠ 0 → env.alloc rhs.used_ = true)
    (hdup : ∀ i, i < rhs.used_ → ∃ v, rhs.buf_ i = some v ∧ env.copy v = some v) :
    ∃ t, copy_ctor env rhs = .ok () t ∧ t.used_ = rhs.used_ ∧ t.size_ = rhs.used_ ∧
      (∀ i, i < rhs.used_ → t.buf_ i = rhs.buf_ i) := by
  obtain ⟨t, ht, hu, hs, _, hhi⟩ :=
    copy_loop_ok env rhs hdup rhs.used_
      { buf_ := fresh_block, size_ := rhs.used_, used_ := 0 } (Nat.zero_add _)
  refine ⟨t, ?_, hu, hs, fun i hi => hhi i (Nat.zero_le i) hi⟩
  by_cases h0 : rhs.used_ = 0
  · rw [h0] at ht
    simp only [copy_ctor, MyStackBuf.ctor, h0, if_true]
    exact ht
  · simp only [copy_ctor, MyStackBuf.ctor, h0, halloc h0, if_true, if_false]
    exact ht

/-- The path of `pop` on a non-empty stack that does not take the shrink block. -/
theorem pop_keep (env : Env α) (fuel : Nat) (s : MyStack α) (hne : s.used_ ≠ 0)
    (hk : ¬ (s.size_ ≠ 0 ∧ s.used_ < s.size_ / 2)) :
    pop env fuel s =
      .ok { s with used_ := (s.used_ + SIZE_MOD - 1) % SIZE_MOD,
                   buf_ := destroy_at s.buf_ ((s.used_ + SIZE_MOD - 1) % SIZE_MOD) } () := by
  have he : empty s = false := by simp [empty, hne]
  have hs : pop_shrink env fuel s = .ok s () := by
    unfold pop_shrink
    rw [if_neg hk]
  simp only [pop, he, hs]
  rfl

/-- The path of `pop` on a non-empty stack that takes the shrink block, when the
half-sized buffer is allocated. -/
theorem pop_shrunk (env : Env α) (fuel : Nat) (s : MyStack α) (hne : s.used_ ≠ 0)
    (hc : s.size_ ≠ 0 ∧ s.used_ < s.size_ / 2) (ha : env.alloc (s.size_ / 2) = true) :
    pop env fuel s =
      .ok { buf_ := destroy_at fresh_block (SIZE_MOD - 1), size_ := s.size_ / 2,
            used_ := SIZE_MOD - 1 } () := by
  have he : empty s = false := by simp [empty, hne]
  have hz : s.size_ / 2 ≠ 0 := by omega
  have hs : pop_shrink env fuel s =
      .ok { buf_ := fresh_block, size_ := s.size_ / 2, used_ := 0 } () := by
    unfold pop_shrink
    rw [if_pos hc]
    have hl : append env fuel { buf_ := fresh_block, size_ := s.size_ / 2, used_ := 0 } s =
        .ok ({ buf_ := fresh_block, size_ := s.size_ / 2, used_ := 0 }, s) () :=
      append_loop_done env fuel _ s 0 (Nat.lt_irrefl 0)
    simp only [ctor, MyStackBuf.ctor, hz, ha, if_true, if_false, hl, swap_eq]
  have hm : (0 + SIZE_MOD - 1) % SIZE_MOD = SIZE_MOD - 1 := by decide
  simp only [pop, he, hs, hm]
  rfl

/-- The path of `pop` without the shrink block, member by member. -/
theorem pop_keep_fields (env : Env α) (fuel : Nat) (s : MyStack α) (hne : s.used_ ≠ 0)
    (hk : ¬ (s.size_ ≠ 0 ∧ s.used_ < s.size_ / 2)) :
    ∃ s', pop env fuel s = .ok s' () ∧ s'.size_ = s.size_ ∧
      s'.used_ = (s.used_ + SIZE_MOD - 1) % SIZE_MOD ∧
      s'.buf_ = destroy_at s.buf_ ((s.used_ + SIZE_MOD - 1) % SIZE_MOD) :=
  ⟨_, pop_keep env fuel s hne hk, rfl, rfl, rfl⟩

/-- The path of `pop` with the shrink block, member by member. -/
theorem pop_shrunk_fields (env : Env α) (fuel : Nat) (s : MyStack α) (hne : s.used_ ≠ 0)
    (hc : s.size_ ≠ 0 ∧ s.used_ < s.size_ / 2) (ha : env.alloc (s.size_ / 2) = true) :
    ∃ s', pop env fuel s = .ok s' () ∧ s'.size_ = s.size_ / 2 ∧
      s'.used_ = SIZE_MOD - 1 ∧ s'.buf_ = destroy_at fresh_block (SIZE_MOD - 1) :=
  ⟨_, pop_shrunk env fuel s hne hc ha, rfl, rfl, rfl⟩

/-- Decrementing a `size_t` that is positive and in range does not wrap. -/
theorem dec_no_wrap (u : Nat) (h0 : u ≠ 0) (hlt : u < SIZE_MOD) :
    (u + SIZE_MOD - 1) % SIZE_MOD = u - 1 := by
  unfold SIZE_MOD at *
  omega

theorem one_of_seven_reachable :
    push_all int_env 2 default [1, 2, 3, 4, 5] = .ok one_of_seven () := rfl

/-- The free-slot branch of `push`, member by member. -/
theorem push_spare_fields (env : Env α) (fuel : Nat) (s : MyStack α) (x : α)
    (h : s.used_ < s.size_) :
    ∃ s', push env (fuel + 1) s x = .ok s' () ∧ s'.size_ = s.size_ ∧
      s'.used_ = s.used_ + 1 ∧ s'.buf_ = construct_at s.buf_ s.used_ x :=
  ⟨_, push_spare env fuel s x h, rfl, rfl, rfl⟩

/-- The growth branch of `push`, member by member. -/
theorem push_full_fields (env : Env α) (fuel : Nat) (s : MyStack α) (x : α)
    (h : s.used_ = s.size_) (ha : env.alloc ((s.size_ * 2 + 1) % SIZE_MOD) = true) :
    ∃ s', push env (fuel + 2) s x = .ok s' () ∧ s'.size_ = (s.size_ * 2 + 1) % SIZE_MOD ∧
      s'.used_ = 1 ∧ s'.buf_ = construct_at fresh_block 0 x :=
  ⟨_, push_full env fuel s x h ha, rfl, rfl, rfl⟩

/-- One round of the loop of `append` in which `push` returns. -/
theorem append_loop_step (env : Env α) (f : Nat) (s rhs : MyStack α) (i : Nat) (x : α)
    (s1 : MyStack α) (hi : i < s.used_) (hx : rhs.buf_ i = some x)
    (hp : push env f s x = .ok s1 ()) (hint : i + 1 ≤ INT_MAX) :
    append_loop env (f + 1) s rhs i =
      append_loop env f s1
        { rhs with buf_ := Function.update rhs.buf_ i (some (env.moved x)) } (i + 1) := by
  simp [append_loop, hi, hx, hp, hint]

/-- The loop of `append` on a non-empty receiver with `k` free slots and an `rhs` that is
another object: it hands `k + 1` elements of `rhs` to `push`, the last of which makes the
receiver grow, and then stops with the receiver holding one element.  `rhs` keeps its
`used_` and `size_`. -/
theorem append_loop_returns (env : Env α) :
    ∀ (k fuel : Nat) (s rhs : MyStack α) (i : Nat),
      s.used_ + k = s.size_ → i < s.used_ →
      (∀ j, i ≤ j → j ≤ i + k → ∃ v, rhs.buf_ j = some v) →
      env.alloc ((s.size_ * 2 + 1) % SIZE_MOD) = true →
      i + k < INT_MAX →
      ∃ s' r', append_loop env (fuel + k + 3) s rhs i = .ok (s', r') () ∧
        r'.used_ = rhs.used_ ∧ r'.size_ = rhs.size_ ∧ s'.used_ = 1 := by
  intro k
  induction k with
  | zero =>
    intro fuel s rhs i hk hi hlive ha hint
    obtain ⟨x, hx⟩ := hlive i (Nat.le_refl i) (Nat.le_add_right i 0)
    obtain ⟨s1, hp, _, hu1, _⟩ := push_full_fields env fuel s x (by omega) ha
    have e : fuel + 0 + 3 = (fuel + 2) + 1 := by omega
    rw [e, append_loop_step env (fuel + 2) s rhs i x s1 hi hx hp (by omega)]
    have hdone : ¬ i + 1 < s1.used_ := by omega
    rw [append_loop_done env (fuel + 2) s1 _ (i + 1) hdone]
    exact ⟨_, _, rfl, rfl, rfl, hu1⟩
  | succ k ih =>
    intro fuel s rhs i hk hi hlive ha hint
    obtain ⟨x, hx⟩ := hlive i (Nat.le_refl i) (Nat.le_add_right i (k + 1))
    obtain ⟨s1, hp, hsz1, hu1, _⟩ := push_spare_fields env (fuel + k + 2) s x (by omega)
    have e : fuel + (k + 1) + 3 = (fuel + k + 2 + 1) + 1 := by omega
    rw [e, append_loop_step env (fuel + k + 2 + 1) s rhs i x s1 hi hx hp (by omega)]
    have hlive1 : ∀ j, i + 1 ≤ j → j ≤ i + 1 + k →
        ∃ v, (Function.update rhs.buf_ i (some (env.moved x))) j = some v := by
      intro j h1 h2
      have hne : j ≠ i := by omega
      rw [Function.update_noteq hne]
      exact hlive j (by omega) (by omega)
    obtain ⟨s', r', hr, hru, hrs, hsu⟩ :=
      ih fuel s1 { rhs with buf_ := Function.update rhs.buf_ i (some (env.moved x)) } (i + 1)
        (by omega) (by omega) hlive1 (by rw [hsz1]; exact ha) (by omega)
    exact ⟨s', r', hr, hru, hrs, hsu⟩

/-- Whenever `push(T&&)` returns, the capacity is unchanged or is the grown capacity. -/
theorem push_capacity (env : Env α) (fuel : Nat) (s : MyStack α) (x : α) (s' : MyStack α)
    (h : push env fuel s x = .ok s' ()) :
    s'.size_ = s.size_ ∨ s'.size_ = (s.size_ * 2 + 1) % SIZE_MOD := by
  cases fuel with
  | zero => simp [push] at h
  | succ f =>
    by_cases hinv : s.used_ ≤ s.size_
    · rcases Nat.eq_or_lt_of_le hinv with hfull | hlt
      · cases ha : env.alloc ((s.size_ * 2 + 1) % SIZE_MOD) with
        | false =>
          rw [push_full_bad_alloc env f s x hfull ha] at h
          cases h
        | true =>
          cases f with
          | zero =>
            have hz := grown_size_ne_zero s.size_
            simp [push, append_loop, ctor, MyStackBuf.ctor, hfull, ha, hz] at h
          | succ g =>
            obtain ⟨t, ht, hsz, _, _⟩ := push_full_fields env g s x hfull ha
            rw [ht] at h
            cases h
            exact Or.inr hsz
      · obtain ⟨t, ht, hsz, _, _⟩ := push_spare_fields env f s x hlt
        rw [ht] at h
        cases h
        exact Or.inl hsz
    · simp [push, hinv] at h

/-- Whenever `push(const T&)` returns, the capacity is unchanged or is the grown capacity. -/
theorem push_copy_capacity (env : Env α) (fuel : Nat) (s : MyStack α) (x : α)
    (s' : MyStack α) (h : push_copy env fuel s x = .ok s' ()) :
    s'.size_ = s.size_ ∨ s'.size_ = (s.size_ * 2 + 1) % SIZE_MOD := by
  unfold push_copy at h
  cases hc : env.copy x with
  | none => simp [hc] at h
  | some v =>
    simp only [hc] at h
    cases hp : push env fuel s v with
    | ok t u =>
      simp only [hp] at h
      cases h
      exact push_capacity env fuel s v _ hp
    | throws t e => simp [hp] at h
    | aborted => simp [hp] at h
    | undefined => simp [hp] at h
    | out_of_fuel => simp [hp] at h

/-- Whenever `pop()` returns, the capacity is unchanged or halved. -/
theorem pop_capacity (env : Env α) (fuel : Nat) (s s' : MyStack α)
    (h : pop env fuel s = .ok s' ()) :
    s'.size_ = s.size_ ∨ s'.size_ = s.size_ / 2 := by
  by_cases hne : s.used_ = 0
  · simp [pop, empty, hne] at h
  · by_cases hc : s.size_ ≠ 0 ∧ s.used_ < s.size_ / 2
    · cases ha : env.alloc (s.size_ / 2) with
      | false =>
        have hz : s.size_ / 2 ≠ 0 := by omega
        simp [pop, pop_shrink, empty, hne, hc, ctor, MyStackBuf.ctor, hz, ha] at h
      | true =>
        obtain ⟨t, ht, hsz, _, _⟩ := pop_shrunk_fields env fuel s hne hc ha
        rw [ht] at h
        cases h
        exact Or.inr hsz
    · obtain ⟨t, ht, hsz, _, _⟩ := pop_keep_fields env fuel s hne hc
      rw [ht] at h
      cases h
      exact Or.inl hsz

/-- The capacities of the form `2 ^ k - 1` with `k <= 64` are closed under growth. -/
theorem pow_form_grow (c : Nat) (h : ∃ k, k ≤ 64 ∧ c + 1 = 2 ^ k) :
    ∃ k, k ≤ 64 ∧ (c * 2 + 1) % SIZE_MOD + 1 = 2 ^ k := by
  obtain ⟨k, hk, hc⟩ := h
  rcases Nat.eq_or_lt_of_le hk with h64 | hlt
  · refine ⟨64, Nat.le_refl 64, ?_⟩
    rw [h64] at hc
    unfold SIZE_MOD
    omega
  · refine ⟨k + 1, hlt, ?_⟩
    have hle : 2 ^ (k + 1) ≤ 2 ^ 64 := Nat.pow_le_pow_right (by decide) hlt
    have hs : 2 ^ (k + 1) = 2 * 2 ^ k := by rw [Nat.pow_succ]; omega
    unfold SIZE_MOD
    omega

/-- The capacities of the form `2 ^ k - 1` with `k <= 64` are closed under halving. -/
theorem pow_form_halve (c : Nat) (h : ∃ k, k ≤ 64 ∧ c + 1 = 2 ^ k) :
    ∃ k, k ≤ 64 ∧ c / 2 + 1 = 2 ^ k := by
  obtain ⟨k, hk, hc⟩ := h
  cases k with
  | zero =>
    refine ⟨0, Nat.zero_le 64, ?_⟩
    have h1 : (2 : Nat) ^ 0 = 1 := rfl
    omega
  | succ j =>
    refine ⟨j, by omega, ?_⟩
    have hs : 2 ^ (j + 1) = 2 * 2 ^ j := by rw [Nat.pow_succ]; omega
    have hp : 0 < 2 ^ j := Nat.two_pow_pos j
    omega

/-- Every reachable stack has a capacity of the form `2 ^ k - 1` with `k <= 64`. -/
theorem reachable_pow_form (env : Env α) (s : MyStack α) (h : Reachable env s) :
    ∃ k, k ≤ 64 ∧ s.size_ + 1 = 2 ^ k := by
  induction h with
  | init => exact ⟨0, Nat.zero_le 64, rfl⟩
  | push fuel s x s' _ hp ih =>
    rcases push_capacity env fuel s x s' hp with e | e
    · rw [e]; exact ih
    · rw [e]; exact pow_form_grow s.size_ ih
  | push_copy fuel s x s' _ hp ih =>
    rcases push_copy_capacity env fuel s x s' hp with e | e
    · rw [e]; exact ih
    · rw [e]; exact pow_form_grow s.size_ ih
  | pop fuel s s' _ hp ih =>
    rcases pop_capacity env fuel s s' hp with e | e
    · rw [e]; exact ih
    · rw [e]; exact pow_form_halve s.size_ ih

/-- Whenever `push(T&&)` returns, the stack it leaves satisfies `used_ <= size_`. -/
theorem push_keeps_inv (env : Env α) (fuel : Nat) (s : MyStack α) (x : α) (s' : MyStack α)
    (h : push env fuel s x = .ok s' ()) : s'.used_ ≤ s'.size_ := by
  cases fuel with
  | zero => simp [push] at h
  | succ f =>
    by_cases hinv : s.used_ ≤ s.size_
    · rcases Nat.eq_or_lt_of_le hinv with hfull | hlt
      · cases ha : env.alloc ((s.size_ * 2 + 1) % SIZE_MOD) with
        | false =>
          rw [push_full_bad_alloc env f s x hfull ha] at h
          cases h
        | true =>
          cases f with
          | zero =>
            have hz := grown_size_ne_zero s.size_
            simp [push, append_loop, ctor, MyStackBuf.ctor, hfull, ha, hz] at h
          | succ g =>
            obtain ⟨t, ht, hsz, hus, _⟩ := push_full_fields env g s x hfull ha
            rw [ht] at h
            cases h
            have hz := grown_size_ne_zero s.size_
            omega
      · obtain ⟨t, ht, hsz, hus, _⟩ := push_spare_fields env f s x hlt
        rw [ht] at h
        cases h
        omega
    · simp [push, hinv] at h

/-- Whenever the loop of `append` returns, the receiver it leaves satisfies `used_ <= size_` if
the receiver it started from did. -/
theorem append_loop_keeps_inv (env : Env α) :
    ∀ (fuel : Nat) (s rhs : MyStack α) (i : Nat) (s' r' : MyStack α),
      s.used_ ≤ s.size_ → append_loop env fuel s rhs i = .ok (s', r') () →
      s'.used_ ≤ s'.size_ := by
  intro fuel
  induction fuel with
  | zero =>
    intro s rhs i s' r' hinv h
    by_cases hi : i < s.used_
    · simp [append_loop, hi] at h
    · rw [append_loop_done env 0 s rhs i hi] at h
      cases h
      exact hinv
  | succ f ih =>
    intro s rhs i s' r' hinv h
    by_cases hi : i < s.used_
    · cases hx : rhs.buf_ i with
      | none => simp [append_loop, hi, hx] at h
      | some x =>
        cases hp : push env f s x with
        | ok s1 u =>
          by_cases hint : i + 1 ≤ INT_MAX
          · rw [append_loop_step env f s rhs i x s1 hi hx hp hint] at h
            exact ih s1 _ (i + 1) s' r' (push_keeps_inv env f s x s1 hp) h
          · simp [append_loop, hi, hx, hp, hint] at h
        | throws t e => simp [append_loop, hi, hx, hp] at h
        | aborted => simp [append_loop, hi, hx, hp] at h
        | undefined => simp [append_loop, hi, hx, hp] at h
        | out_of_fuel => simp [append_loop, hi, hx, hp] at h
    · rw [append_loop_done env (f + 1) s rhs i hi] at h
      cases h
      exact hinv

/-- Whenever copy assignment returns (with exact copies), the receiver satisfies
`used_ <= size_`. -/
theorem copy_assign_keeps_inv (env : Env α) (s rhs t : MyStack α)
    (hdup : ∀ i, i < rhs.used_ → ∃ v, rhs.buf_ i = some v ∧ env.copy v = some v)
    (h : copy_assign env s rhs = .ok t ()) : t.used_ ≤ t.size_ := by
  by_cases h0 : rhs.used_ = 0
  · obtain ⟨t', ht', hu, hz, _⟩ := copy_ctor_ok env rhs (fun hne => absurd h0 hne) hdup
    simp only [copy_assign, ht', swap_eq] at h
    cases h
    omega
  · cases ha : env.alloc rhs.used_ with
    | false => simp [copy_assign, copy_ctor, MyStackBuf.ctor, h0, ha] at h
    | true =>
      obtain ⟨t', ht', hu, hz, _⟩ := copy_ctor_ok env rhs (fun _ => ha) hdup
      simp only [copy_assign, ht', swap_eq] at h
      cases h
      omega

/-- The invariant `used_ <= size_` holds after the constructor, and is kept by `push`, by
`append`, by a `pop` that does not take the shrink block, by the copy constructor, by the
move constructor (for both objects) and by move assignment; for copy assignment see
`copy_assign_keeps_inv`. -/
theorem invariant_kept_outside_shrink (env : Env α) (fuel : Nat) (s rhs : MyStack α)
    (hs : s.used_ ≤ s.size_) (hr : rhs.used_ ≤ rhs.size_) :
    (∀ n t, ctor env n = .ok () t → t.used_ ≤ t.size_) ∧
      (∀ x t, push env fuel s x = .ok t () → t.used_ ≤ t.size_) ∧
      (∀ t r, append env fuel s rhs = .ok (t, r) () → t.used_ ≤ t.size_) ∧
      (∀ t, ¬ (s.size_ ≠ 0 ∧ s.used_ < s.size_ / 2) → pop env fuel s = .ok t () →
        t.used_ ≤ t.size_) ∧
      (∀ t, copy_ctor env rhs = .ok () t →
        (∀ i, i < rhs.used_ → ∃ v, rhs.buf_ i = some v ∧ env.copy v = some v) →
        t.used_ ≤ t.size_) ∧
      (move_ctor s).1.used_ ≤ (move_ctor s).1.size_ ∧
      (move_ctor s).2.used_ ≤ (move_ctor s).2.size_ ∧
      (move_assign s rhs).1.used_ ≤ (move_assign s rhs).1.size_ ∧
      (move_assign s rhs).2.used_ ≤ (move_assign s rhs).2.size_ := by
  refine ⟨?_, ?_, ?_, ?_, ?_, hs, Nat.le_refl 0, hr, hs⟩
  · intro n t h
    unfold ctor MyStackBuf.ctor at h
    split at h
    · cases h
      exact Nat.zero_le _
    · split at h
      · cases h
        exact Nat.zero_le _
      · cases h
  · intro x t h
    exact push_keeps_inv env fuel s x t h
  · intro t r h
    exact append_loop_keeps_inv env fuel s rhs 0 t r hs h
  · intro t hk h
    by_cases hne : s.used_ = 0
    · simp [pop, empty, hne] at h
    · obtain ⟨t', ht', hsz, hus, _⟩ := pop_keep_fields env fuel s hne hk
      rw [ht'] at h
      cases h
      have hmod : (s.used_ + SIZE_MOD - 1) % SIZE_MOD ≤ s.used_ - 1 := by
        unfold SIZE_MOD
        omega
      omega
  · intro t h hdup
    by_cases h0 : rhs.used_ = 0
    · obtain ⟨t', ht', hu, hz, _⟩ := copy_ctor_ok env rhs (fun hne => absurd h0 hne) hdup
      rw [ht'] at h
      cases h
      omega
    · cases ha : env.alloc rhs.used_ with
      | false => simp [copy_ctor, MyStackBuf.ctor, h0, ha] at h
      | true =>
        obtain ⟨t', ht', hu, hz, _⟩ := copy_ctor_ok env rhs (fun _ => ha) hdup
        rw [ht'] at h
        cases h
        omega

end MyStack

namespace InStore

variable {α : Type}

/-- Destroying an empty range of slots changes nothing. -/
theorem store_destroy_same (h : Heap α) (p k : Nat) : Heap.destroy h p k k = h := by
  unfold Heap.destroy
  cases hc : h.cell p with
  | none => rfl
  | some b =>
    have hf : (fun i => if k ≤ i ∧ i < k then none else b i) = b := by
      funext i
      have hn : ¬ (k ≤ i ∧ i < k) := by omega
      rw [if_neg hn]
    cases h with
    | mk cell next =>
      simp only [hf]
      congr
      have hc2 : cell p = some b := hc
      rw [← hc2]
      exact Function.update_eq_self p cell

/-- The destructor of an object in the empty state changes nothing. -/
theorem store_dtor_null (h : Heap α) : dtor h { buf_ := 0, size_ := 0, used_ := 0 } = h := by
  unfold dtor Heap.operator_delete
  rw [if_pos rfl]
  exact store_destroy_same h 0 0

theorem store_swap_eq (h : Heap α) (a b : MyStack) : swap h a b = (h, b, a) := by
  unfold swap move_ctor move_assign
  simp only [store_dtor_null]

theorem store_dtor_next (h : Heap α) (s : MyStack) : (dtor h s).next = h.next := by
  unfold dtor Heap.operator_delete Heap.destroy
  cases hc : h.cell s.buf_ <;> by_cases h0 : s.buf_ = 0 <;> simp [h0]

/-- The destructor touches no block other than the one of its object. -/
theorem store_dtor_cell (h : Heap α) (s : MyStack) (q : Nat)
    (hq : q ≠ s.buf_ ∨ (s.buf_ = 0 ∧ h.cell 0 = none)) : (dtor h s).cell q = h.cell q := by
  rcases hq with hne | ⟨h0, hn⟩
  · unfold dtor Heap.operator_delete Heap.destroy
    by_cases h0 : s.buf_ = 0
    · rw [h0] at hne ⊢
      cases hc : h.cell 0 <;> simp [Function.update_noteq hne]
    · cases hc : h.cell s.buf_ <;> simp [h0, Function.update_noteq hne]
  · unfold dtor Heap.operator_delete Heap.destroy
    rw [h0, hn]
    simp

theorem store_destroy_at_cell (h : Heap α) (p i q : Nat) (hq : q ≠ p) :
    (Heap.destroy_at h p i).cell q = h.cell q := by
  unfold Heap.destroy_at
  cases hc : h.cell p <;> simp [Function.update_noteq hq]

/-- Two stores with the same block at `s.buf_` show the same elements of `s`. -/
theorem store_elems_congr (h1 h2 : Heap α) (s : MyStack) (hc : h1.cell s.buf_ = h2.cell s.buf_) :
    elems h1 s = elems h2 s := by
  unfold elems
  apply List.map_congr_left
  intro i _
  unfold Heap.load
  rw [hc]

/-- The growth branch of `push` when the grown buffer is allocated: the new block is the
only one that holds an element, and the old block is released. -/
theorem store_push_full_ok (env : Env α) (fuel : Nat) (h : Heap α) (s : MyStack) (x : α)
    (hfull : s.used_ = s.size_) (ha : env.alloc ((s.size_ * 2 + 1) % SIZE_MOD) = true) :
    push env (fuel + 2) h s x =
      .ok (dtor { cell := Function.update h.cell h.next
                    (some (ExceptionSafeStack.construct_at fresh_block 0 x)),
                  next := h.next + 1 } s,
           { buf_ := h.next, size_ := (s.size_ * 2 + 1) % SIZE_MOD, used_ := 1 }) () := by
  have hz := MyStack.grown_size_ne_zero s.size_
  have hz2 : ¬ (0 = (s.size_ * 2 + 1) % SIZE_MOD) := fun e => hz e.symm
  simp [push, append_loop, ctor, Heap.operator_new, Heap.construct_at, hfull, ha, hz, hz2,
    store_swap_eq]

/-- The growth branch of `push` when the allocation fails. -/
theorem store_push_full_bad_alloc (env : Env α) (fuel : Nat) (h : Heap α) (s : MyStack) (x : α)
    (hfull : s.used_ = s.size_) (ha : env.alloc ((s.size_ * 2 + 1) % SIZE_MOD) = false) :
    push env (fuel + 1) h s x = .throws (h, s) .bad_alloc := by
  have hz := MyStack.grown_size_ne_zero s.size_
  simp [push, ctor, Heap.operator_new, hfull, ha, hz]

/-- Whatever `push` does to a full stack, it leaves every block that was handed out before
the call and is not the block of that stack as it was. -/
theorem store_push_full_final (env : Env α) (fuel : Nat) (h : Heap α) (s : MyStack) (x : α)
    (hfull : s.used_ = s.size_) :
    ∃ st, (push env (fuel + 2) h s x).final? = some st ∧
      ∀ q, q < h.next → (q ≠ s.buf_ ∨ (s.buf_ = 0 ∧ h.cell 0 = none)) →
        st.1.cell q = h.cell q := by
  cases ha : env.alloc ((s.size_ * 2 + 1) % SIZE_MOD) with
  | false =>
    rw [store_push_full_bad_alloc env (fuel + 1) h s x hfull ha]
    exact ⟨_, rfl, fun _ _ _ => rfl⟩
  | true =>
    rw [store_push_full_ok env fuel h s x hfull ha]
    refine ⟨_, rfl, ?_⟩
    intro q hq hd
    have hqn : q ≠ h.next := Nat.ne_of_lt hq
    have h0n : (0 : Nat) ≠ h.next := by omega
    have hd2 : q ≠ s.buf_ ∨ (s.buf_ = 0 ∧
        (Function.update h.cell h.next
          (some (ExceptionSafeStack.construct_at fresh_block 0 x))) 0 = none) := by
      rcases hd with h1 | ⟨h1, h2⟩
      · exact Or.inl h1
      · exact Or.inr ⟨h1, by rw [Function.update_noteq h0n]; exact h2⟩
    show (dtor _ s).cell q = h.cell q
    rw [store_dtor_cell _ s q hd2]
    exact Function.update_noteq hqn _ _

/-- Whatever `pop` does to a stack whose buffer is full, it leaves every block other than
the block of that stack as it was, and an empty stack leaves every block as it was. -/
theorem store_pop_full_final (env : Env α) (fuel : Nat) (h : Heap α) (s : MyStack)
    (hfull : s.used_ = s.size_) :
    ∃ st, (pop env fuel h s).final? = some st ∧
      ∀ q, (q ≠ s.buf_ ∨ s.used_ = 0) → st.1.cell q = h.cell q := by
  by_cases h0 : s.used_ = 0
  · have he : empty s = true := by simp [empty, h0]
    refine ⟨(h, s), ?_, fun _ _ => rfl⟩
    simp [pop, he, Outcome.final?]
  · have he : empty s = false := by simp [empty, h0]
    have hk : ¬ (s.size_ ≠ 0 ∧ s.used_ < s.size_ / 2) := by omega
    have hs : pop_shrink env fuel h s = .ok (h, s) () := by
      unfold pop_shrink
      rw [if_neg hk]
    refine ⟨(Heap.destroy_at h s.buf_ ((s.used_ + SIZE_MOD - 1) % SIZE_MOD),
      { s with used_ := (s.used_ + SIZE_MOD - 1) % SIZE_MOD }), ?_, ?_⟩
    · simp only [pop, he, hs]
      rfl
    · intro q hq
      rcases hq with hq | hq
      · exact store_destroy_at_cell h s.buf_ _ q hq
      · exact absurd hq h0

/-- The copy loop, when every copy succeeds and is exact: it fills the slots
`used_ .. rhs.used_ - 1` of the new block with the contents of the same slots of the
block `B` of `rhs`, and touches no other block. -/
theorem store_copy_loop_ok (env : Env α) (rhs : MyStack) (B : Buf α)
    (hdup : ∀ i, i < rhs.used_ → ∃ v, B i = some v ∧ env.copy v = some v) :
    ∀ (n : Nat) (h : Heap α) (s : MyStack), s.used_ + n = rhs.used_ → s.buf_ ≠ rhs.buf_ →
      h.cell rhs.buf_ = some B → (∃ b, h.cell s.buf_ = some b) →
      ∃ h' t, copy_loop env rhs n h s = .ok h' t ∧ t.used_ = rhs.used_ ∧ t.size_ = s.size_ ∧
        t.buf_ = s.buf_ ∧ h'.next = h.next ∧
        (∀ q, q ≠ s.buf_ → h'.cell q = h.cell q) ∧
        (∀ i, i < s.used_ → Heap.load h' s.buf_ i = Heap.load h s.buf_ i) ∧
        (∀ i, s.used_ ≤ i → i < rhs.used_ → Heap.load h' s.buf_ i = B i) := by
  intro n
  induction n with
  | zero =>
    intro h s hn _ _ _
    have hnlt : ¬ s.used_ < rhs.used_ := by omega
    refine ⟨h, s, by simp [copy_loop, hnlt], by omega, rfl, rfl, rfl, fun _ _ => rfl,
      fun _ _ => rfl, ?_⟩
    intro i h1 h2
    omega
  | succ n ih =>
    intro h s hn hne hB hb
    obtain ⟨b, hb⟩ := hb
    have hlt : s.used_ < rhs.used_ := by omega
    obtain ⟨v, hv, hc⟩ := hdup s.used_ hlt
    have hload : Heap.load h rhs.buf_ s.used_ = some v := by
      unfold Heap.load
      rw [hB]
      exact hv
    have hcons : Heap.construct_at h s.buf_ s.used_ v =
        some (Heap.mk (Function.update h.cell s.buf_
          (some (ExceptionSafeStack.construct_at b s.used_ v))) h.next) := by
      unfold Heap.construct_at
      rw [hb]
    have hB1 : (Function.update h.cell s.buf_
        (some (ExceptionSafeStack.construct_at b s.used_ v))) rhs.buf_ = some B := by
      rw [Function.update_noteq (Ne.symm hne)]
      exact hB
    obtain ⟨h', t, ht, hu, hs, hbuf, hnx, hfr, hlo, hhi⟩ :=
      ih (Heap.mk (Function.update h.cell s.buf_
          (some (ExceptionSafeStack.construct_at b s.used_ v))) h.next)
        { s with used_ := s.used_ + 1 }
        (by show s.used_ + 1 + n = rhs.used_; omega) hne hB1
        ⟨_, Function.update_same _ _ _⟩
    have hslot : ∀ i, Heap.load
        (Heap.mk (Function.update h.cell s.buf_
          (some (ExceptionSafeStack.construct_at b s.used_ v))) h.next) s.buf_ i =
        ExceptionSafeStack.construct_at b s.used_ v i := by
      intro i
      unfold Heap.load
      simp
    have hold : ∀ i, Heap.load h s.buf_ i = b i := by
      intro i
      unfold Heap.load
      rw [hb]
    refine ⟨h', t, ?_, hu, hs, hbuf, hnx, ?_, ?_, ?_⟩
    · simp only [copy_loop, hlt, hload, hc, hcons, if_true]
      exact ht
    · intro q hq
      rw [hfr q hq]
      exact Function.update_noteq hq _ _
    · intro i hi
      rw [hlo i (by show i < s.used_ + 1; omega), hslot, hold]
      exact Function.update_noteq (Nat.ne_of_lt hi) _ _
    · intro i h1 h2
      rcases Nat.eq_or_lt_of_le h1 with heq | hlt2
      · rw [hlo i (by show i < s.used_ + 1; omega), hslot, ← heq, hv]
        exact Function.update_same _ _ _
      · exact hhi i hlt2 h2

theorem store_load_congr (h1 h2 : Heap α) (p i : Nat) (hc : h1.cell p = h2.cell p) :
    Heap.load h1 p i = Heap.load h2 p i := by
  unfold Heap.load
  rw [hc]

/-- Copy assignment in the free store, when the buffer for the duplicate is allocated and
every copy succeeds and is exact.  The receiver ends with a block of its own, filled with
the elements of `rhs`; the block of `rhs` is as it was. -/
theorem store_copy_assign_ok (env : Env α) (h : Heap α) (self rhs : MyStack)
    (hnull : h.cell 0 = none) (hvr : rhs.buf_ < h.next) (hvs : self.buf_ < h.next)
    (hdisj : self.buf_ = 0 ∨ self.buf_ ≠ rhs.buf_)
    (halloc : rhs.used_ ≠ 0 → env.alloc rhs.used_ = true)
    (hdup : ∀ i, i < rhs.used_ → ∃ v, Heap.load h rhs.buf_ i = some v ∧ env.copy v = some v) :
    ∃ h' c, copy_assign env h self rhs = .ok (h', c) () ∧
      c.used_ = rhs.used_ ∧ c.size_ = rhs.used_ ∧ h.next ≤ h'.next ∧
      (∀ i, i < rhs.used_ → Heap.load h' c.buf_ i = Heap.load h rhs.buf_ i) ∧
      h'.cell rhs.buf_ = h.cell rhs.buf_ ∧ h'.cell 0 = none ∧
      (c.buf_ = 0 ∨ c.buf_ ≠ rhs.buf_) ∧
      (rhs.buf_ ≠ c.buf_ ∨ c.used_ = 0) := by
  have hself : ∀ (g : Heap α) (q : Nat), g.cell 0 = none →
      (q ≠ self.buf_ ∨ q = 0) → (dtor g self).cell q = g.cell q := by
    intro g q hg hq
    rcases hq with hq | hq
    · exact store_dtor_cell g self q (Or.inl hq)
    · by_cases hs0 : self.buf_ = 0
      · exact store_dtor_cell g self q (Or.inr ⟨hs0, hg⟩)
      · exact store_dtor_cell g self q (Or.inl (by rw [hq]; exact Ne.symm hs0))
  by_cases h0 : rhs.used_ = 0
  · have hctor : copy_ctor env h rhs = .ok h { buf_ := 0, size_ := 0, used_ := 0 } := by
      simp [copy_ctor, ctor, h0, copy_loop]
    have hres : copy_assign env h self rhs =
        .ok (dtor h self, { buf_ := 0, size_ := 0, used_ := 0 }) () := by
      simp only [copy_assign, hctor, store_swap_eq]
    have hcell0 : (dtor h self).cell 0 = none := by
      rw [hself h 0 hnull (Or.inr rfl)]
      exact hnull
    have hrc : (dtor h self).cell rhs.buf_ = h.cell rhs.buf_ := by
      rcases hdisj with hd | hd
      · exact store_dtor_cell h self rhs.buf_ (Or.inr ⟨hd, hnull⟩)
      · exact store_dtor_cell h self rhs.buf_ (Or.inl (Ne.symm hd))
    refine ⟨_, _, hres, h0.symm, h0.symm, ?_, ?_, hrc, hcell0, Or.inl rfl, Or.inr rfl⟩
    · rw [store_dtor_next]
    · intro i hi
      omega
  · obtain ⟨v0, hv0, _⟩ := hdup 0 (by omega)
    cases hcell : h.cell rhs.buf_ with
    | none =>
      unfold Heap.load at hv0
      rw [hcell] at hv0
      cases hv0
    | some B =>
      have hb0 : rhs.buf_ ≠ 0 := by
        intro e
        rw [e, hnull] at hcell
        cases hcell
      have hloadB : ∀ i, Heap.load h rhs.buf_ i = B i := by
        intro i
        unfold Heap.load
        rw [hcell]
      have hdupB : ∀ i, i < rhs.used_ → ∃ v, B i = some v ∧ env.copy v = some v := by
        intro i hi
        obtain ⟨v, hv, hc⟩ := hdup i hi
        exact ⟨v, by rw [← hloadB i]; exact hv, hc⟩
      have hfresh : h.next ≠ rhs.buf_ := Nat.ne_of_gt hvr
      obtain ⟨h2, t, ht, hu, hs, hbuf, hnx, hfr, _, hhi⟩ :=
        store_copy_loop_ok env rhs B hdupB rhs.used_
          (Heap.mk (Function.update h.cell h.next (some fresh_block)) (h.next + 1))
          { buf_ := h.next, size_ := rhs.used_, used_ := 0 } (Nat.zero_add _) hfresh
          (by
            show Function.update h.cell h.next (some fresh_block) rhs.buf_ = some B
            rw [Function.update_noteq (Ne.symm hfresh)]
            exact hcell)
          ⟨fresh_block, Function.update_same _ _ _⟩
      have hctor : copy_ctor env h rhs = .ok h2 t := by
        simp only [copy_ctor, ctor, h0, Heap.operator_new, halloc h0, if_true, if_false]
        exact ht
      have hres : copy_assign env h self rhs = .ok (dtor h2 self, t) () := by
        simp only [copy_assign, hctor, store_swap_eq]
      have htb : t.buf_ = h.next := hbuf
      have hnew : (dtor h2 self).cell h.next = h2.cell h.next :=
        store_dtor_cell h2 self h.next (Or.inl (Nat.ne_of_gt hvs))
      have hrs : rhs.buf_ ≠ self.buf_ := by
        rcases hdisj with hd | hd
        · rw [hd]
          exact hb0
        · exact Ne.symm hd
      have hrc : (dtor h2 self).cell rhs.buf_ = h.cell rhs.buf_ := by
        rw [store_dtor_cell h2 self rhs.buf_ (Or.inl hrs), hfr rhs.buf_ (Ne.symm hfresh)]
        exact Function.update_noteq (Ne.symm hfresh) _ _
      have hne : rhs.buf_ ≠ t.buf_ := by
        rw [htb]
        exact Ne.symm hfresh
      have h0n : (0 : Nat) ≠ h.next := by omega
      have hcell0 : (dtor h2 self).cell 0 = none := by
        have hg : h2.cell 0 = none := by
          rw [hfr 0 h0n]
          show Function.update h.cell h.next (some fresh_block) 0 = none
          rw [Function.update_noteq h0n]
          exact hnull
        rw [hself h2 0 hg (Or.inr rfl)]
        exact hg
      refine ⟨_, _, hres, hu, hs, ?_, ?_, hrc.trans hcell, hcell0, Or.inr (Ne.symm hne),
        Or.inl hne⟩
      · rw [store_dtor_next, hnx]
        exact Nat.le_succ _
      · intro i hi
        rw [htb, store_load_congr _ _ h.next i hnew, hloadB i]
        exact hhi i (Nat.zero_le i) hi

theorem store_append_loop_done (env : Env α) (fuel : Nat) (h : Heap α) (s rhs : MyStack)
    (i : Nat) (hi : ¬ i < s.used_) : append_loop env fuel h s rhs i = .ok (h, s, rhs) () := by
  cases fuel <;> simp [append_loop, hi]

/-- The free-slot branch of `push` when there is a block at `buf_`. -/
theorem store_push_spare (env : Env α) (fuel : Nat) (h : Heap α) (s : MyStack) (x : α)
    (blk : Buf α) (hlt : s.used_ < s.size_) (hc : h.cell s.buf_ = some blk) :
    push env (fuel + 1) h s x =
      .ok (Heap.mk (Function.update h.cell s.buf_
              (some (ExceptionSafeStack.construct_at blk s.used_ x))) h.next,
           { s with used_ := s.used_ + 1 }) () := by
  have h1 : s.used_ ≤ s.size_ := Nat.le_of_lt hlt
  have h2 : s.used_ ≠ s.size_ := Nat.ne_of_lt hlt
  simp [push, h1, h2, Heap.construct_at, hc]

/-- Whatever `push` does, a block that the stack does not own is left as it was, and the
stack still does not own it. -/
theorem store_push_frame (env : Env α) (fuel : Nat) (h : Heap α) (s : MyStack) (x : α)
    (b : Nat) (st : Heap α × MyStack) (ha : apart b h s)
    (hst : (push env fuel h s x).final? = some st) :
    apart b st.1 st.2 ∧ st.1.cell b = h.cell b := by
  obtain ⟨hnull, hb, hsep⟩ := ha
  have h0n : (0 : Nat) ≠ h.next := by omega
  have hbn : b ≠ h.next := Nat.ne_of_lt hb
  cases fuel with
  | zero => simp [push, Outcome.final?] at hst
  | succ f =>
    by_cases hinv : s.used_ ≤ s.size_
    · rcases Nat.eq_or_lt_of_le hinv with hfull | hlt
      · cases hal : env.alloc ((s.size_ * 2 + 1) % SIZE_MOD) with
        | false =>
          rw [store_push_full_bad_alloc env f h s x hfull hal] at hst
          have e : (h, s) = st := Option.some.inj hst
          subst e
          exact ⟨⟨hnull, hb, hsep⟩, rfl⟩
        | true =>
          cases f with
          | zero =>
            have hz := MyStack.grown_size_ne_zero s.size_
            simp [push, append_loop, ctor, Heap.operator_new, hfull, hal, hz,
              Outcome.final?] at hst
          | succ g =>
            rw [store_push_full_ok env g h s x hfull hal] at hst
            have e := Option.some.inj hst
            subst e
            have hd : ∀ q, q ≠ h.next → (q ≠ s.buf_ ∨ s.buf_ = 0) →
                (dtor (Heap.mk (Function.update h.cell h.next
                  (some (ExceptionSafeStack.construct_at fresh_block 0 x))) (h.next + 1)) s).cell q
                  = h.cell q := by
              intro q hq hqs
              have h00 : (Function.update h.cell h.next
                  (some (ExceptionSafeStack.construct_at fresh_block 0 x))) 0 = none := by
                rw [Function.update_noteq h0n]
                exact hnull
              have hq2 : q ≠ s.buf_ ∨ (s.buf_ = 0 ∧
                  (Heap.mk (Function.update h.cell h.next
                    (some (ExceptionSafeStack.construct_at fresh_block 0 x)))
                    (h.next + 1)).cell 0 = none) := by
                rcases hqs with h1 | h1
                · exact Or.inl h1
                · exact Or.inr ⟨h1, h00⟩
              rw [store_dtor_cell _ s q hq2]
              exact Function.update_noteq hq _ _
            refine ⟨⟨?_, ?_, Or.inr (Ne.symm hbn)⟩, ?_⟩
            · exact (hd 0 h0n (by
                by_cases hs0 : s.buf_ = 0
                · exact Or.inr hs0
                · exact Or.inl (Ne.symm hs0))).trans hnull
            · show b < (dtor _ s).next
              rw [store_dtor_next]
              exact Nat.lt_succ_of_lt hb
            · exact hd b hbn (by
                rcases hsep with h1 | h1
                · exact Or.inr h1
                · exact Or.inl (Ne.symm h1))
      · cases hc : h.cell s.buf_ with
        | none =>
          have h1 : s.used_ ≠ s.size_ := Nat.ne_of_lt hlt
          simp [push, hinv, h1, Heap.construct_at, hc, Outcome.final?] at hst
        | some blk =>
          rw [store_push_spare env f h s x blk hlt hc] at hst
          have e := Option.some.inj hst
          subst e
          have hs0 : s.buf_ ≠ 0 := by
            intro e0
            rw [e0, hnull] at hc
            cases hc
          have hsb : s.buf_ ≠ b := by
            rcases hsep with h1 | h1
            · exact absurd h1 hs0
            · exact h1
          refine ⟨⟨?_, hb, Or.inr hsb⟩, ?_⟩
          · show Function.update h.cell s.buf_ _ 0 = none
            rw [Function.update_noteq (Ne.symm hs0)]
            exact hnull
          · show Function.update h.cell s.buf_ _ b = h.cell b
            exact Function.update_noteq (Ne.symm hsb) _ _
    · simp [push, hinv, Outcome.final?] at hst

/-- The path of `pop` on a non-empty stack that does not take the shrink block. -/
theorem store_pop_keep (env : Env α) (fuel : Nat) (h : Heap α) (s : MyStack)
    (hne : s.used_ ≠ 0) (hk : ¬ (s.size_ ≠ 0 ∧ s.used_ < s.size_ / 2)) :
    ∃ u, pop env fuel h s = .ok (Heap.destroy_at h s.buf_ u, { s with used_ := u }) () := by
  have he : empty s = false := by simp [empty, hne]
  have hs : pop_shrink env fuel h s = .ok (h, s) () := by
    unfold pop_shrink
    rw [if_neg hk]
  refine ⟨(s.used_ + SIZE_MOD - 1) % SIZE_MOD, ?_⟩
  simp only [pop, he, hs]
  rfl

/-- The path of `pop` on a non-empty stack that takes the shrink block, when the half-sized
buffer is allocated: the stack ends on the new block and its old block is released. -/
theorem store_pop_shrunk (env : Env α) (fuel : Nat) (h : Heap α) (s : MyStack)
    (hne : s.used_ ≠ 0) (hc : s.size_ ≠ 0 ∧ s.used_ < s.size_ / 2)
    (ha : env.alloc (s.size_ / 2) = true) :
    ∃ u, pop env fuel h s =
      .ok (Heap.destroy_at
             (dtor (Heap.mk (Function.update h.cell h.next (some fresh_block)) (h.next + 1)) s)
             h.next u,
           { buf_ := h.next, size_ := s.size_ / 2, used_ := u }) () := by
  have he : empty s = false := by simp [empty, hne]
  have hz : s.size_ / 2 ≠ 0 := by omega
  have hs : pop_shrink env fuel h s =
      .ok (dtor (Heap.mk (Function.update h.cell h.next (some fresh_block)) (h.next + 1)) s,
           { buf_ := h.next, size_ := s.size_ / 2, used_ := 0 }) () := by
    unfold pop_shrink
    rw [if_pos hc]
    have hl : append env fuel
        (Heap.mk (Function.update h.cell h.next (some fresh_block)) (h.next + 1))
        { buf_ := h.next, size_ := s.size_ / 2, used_ := 0 } s =
        .ok (Heap.mk (Function.update h.cell h.next (some fresh_block)) (h.next + 1),
             { buf_ := h.next, size_ := s.size_ / 2, used_ := 0 }, s) () :=
      store_append_loop_done env fuel _ _ s 0 (Nat.lt_irrefl 0)
    simp only [ctor, Heap.operator_new, hz, ha, if_true, if_false, hl, store_swap_eq]
  refine ⟨(0 + SIZE_MOD - 1) % SIZE_MOD, ?_⟩
  simp only [pop, he, hs]
  rfl

/-- Whatever `pop` does, a block that the stack does not own is left as it was, and the
stack still does not own it. -/
theorem store_pop_frame (env : Env α) (fuel : Nat) (h : Heap α) (s : MyStack)
    (b : Nat) (st : Heap α × MyStack) (ha : apart b h s)
    (hst : (pop env fuel h s).final? = some st) :
    apart b st.1 st.2 ∧ st.1.cell b = h.cell b := by
  obtain ⟨hnull, hb, hsep⟩ := ha
  have h0n : (0 : Nat) ≠ h.next := by omega
  have hbn : b ≠ h.next := Nat.ne_of_lt hb
  by_cases hne : s.used_ = 0
  · have he : empty s = true := by simp [empty, hne]
    have hp : pop env fuel h s = .throws (h, s) (.runtime_error "Attempt to pop empty stack") := by
      simp [pop, he]
    rw [hp] at hst
    have e : (h, s) = st := Option.some.inj hst
    subst e
    exact ⟨⟨hnull, hb, hsep⟩, rfl⟩
  · by_cases hc : s.size_ ≠ 0 ∧ s.used_ < s.size_ / 2
    · cases hal : env.alloc (s.size_ / 2) with
      | false =>
        have he : empty s = false := by simp [empty, hne]
        have hz : s.size_ / 2 ≠ 0 := by omega
        have hp : pop env fuel h s = .throws (h, s) .bad_alloc := by
          simp [pop, pop_shrink, he, hc, ctor, Heap.operator_new, hz, hal]
        rw [hp] at hst
        have e : (h, s) = st := Option.some.inj hst
        subst e
        exact ⟨⟨hnull, hb, hsep⟩, rfl⟩
      | true =>
        obtain ⟨u, hp⟩ := store_pop_shrunk env fuel h s hne hc hal
        rw [hp] at hst
        have e := Option.some.inj hst
        subst e
        have h00 : (Function.update h.cell h.next (some fresh_block)) 0 = none := by
          rw [Function.update_noteq h0n]
          exact hnull
        have hd : ∀ q, q ≠ h.next → (q ≠ s.buf_ ∨ s.buf_ = 0) →
            (Heap.destroy_at
              (dtor (Heap.mk (Function.update h.cell h.next (some fresh_block)) (h.next + 1)) s)
              h.next u).cell q = h.cell q := by
          intro q hq hqs
          have hq2 : q ≠ s.buf_ ∨ (s.buf_ = 0 ∧
              (Heap.mk (Function.update h.cell h.next (some fresh_block))
                (h.next + 1)).cell 0 = none) := by
            rcases hqs with h1 | h1
            · exact Or.inl h1
            · exact Or.inr ⟨h1, h00⟩
          rw [store_destroy_at_cell _ h.next u q hq, store_dtor_cell _ s q hq2]
          exact Function.update_noteq hq _ _
        have hnx : (Heap.destroy_at
            (dtor (Heap.mk (Function.update h.cell h.next (some fresh_block)) (h.next + 1)) s)
            h.next u).next = h.next + 1 := by
          unfold Heap.destroy_at
          split <;> simp [store_dtor_next]
        refine ⟨⟨?_, ?_, Or.inr (Ne.symm hbn)⟩, ?_⟩
        · exact (hd 0 h0n (by
            by_cases hs0 : s.buf_ = 0
            · exact Or.inr hs0
            · exact Or.inl (Ne.symm hs0))).trans hnull
        · show b < (Heap.destroy_at _ h.next u).next
          rw [hnx]
          exact Nat.lt_succ_of_lt hb
        · exact hd b hbn (by
            rcases hsep with h1 | h1
            · exact Or.inr h1
            · exact Or.inl (Ne.symm h1))
    · obtain ⟨u, hp⟩ := store_pop_keep env fuel h s hne hc
      rw [hp] at hst
      have e := Option.some.inj hst
      subst e
      have hd : ∀ q, (q ≠ s.buf_ ∨ s.buf_ = 0) →
          (Heap.destroy_at h s.buf_ u).cell q = h.cell q := by
        intro q hqs
        rcases hqs with h1 | h1
        · exact store_destroy_at_cell h s.buf_ u q h1
        · unfold Heap.destroy_at
          rw [h1, hnull]
      have hnx : (Heap.destroy_at h s.buf_ u).next = h.next := by
        unfold Heap.destroy_at
        split <;> rfl
      refine ⟨⟨?_, ?_, hsep⟩, ?_⟩
      · exact (hd 0 (by
          by_cases hs0 : s.buf_ = 0
          · exact Or.inr hs0
          · exact Or.inl (Ne.symm hs0))).trans hnull
      · show b < (Heap.destroy_at h s.buf_ u).next
        rw [hnx]
        exact hb
      · exact hd b (by
          rcases hsep with h1 | h1
          · exact Or.inr h1
          · exact Or.inl (Ne.symm h1))

/-- Whatever a sequence of `push` and `pop` calls on a stack does, a block that the stack
does not own is left as it was. -/
theorem store_mutate_frame (env : Env α) (fuel : Nat) (b : Nat) :
    ∀ (ops : List (Option α)) (st st' : Heap α × MyStack), apart b st.1 st.2 →
      mutate env fuel st ops = some st' → apart b st'.1 st'.2 ∧ st'.1.cell b = st.1.cell b := by
  intro ops
  induction ops with
  | nil =>
    intro st st' ha hm
    have e : st = st' := Option.some.inj hm
    subst e
    exact ⟨ha, rfl⟩
  | cons op ops ih =>
    intro st st' ha hm
    cases op with
    | some x =>
      cases hp : (push env fuel st.1 st.2 x).final? with
      | none => simp [mutate, hp] at hm
      | some st1 =>
        simp only [mutate, hp] at hm
        obtain ⟨ha1, hc1⟩ := store_push_frame env fuel st.1 st.2 x b st1 ha hp
        obtain ⟨ha2, hc2⟩ := ih st1 st' ha1 hm
        exact ⟨ha2, hc2.trans hc1⟩
    | none =>
      cases hp : (pop env fuel st.1 st.2).final? with
      | none => simp [mutate, hp] at hm
      | some st1 =>
        simp only [mutate, hp] at hm
        obtain ⟨ha1, hc1⟩ := store_pop_frame env fuel st.1 st.2 b st1 ha hp
        obtain ⟨ha2, hc2⟩ := ih st1 st' ha1 hm
        exact ⟨ha2, hc2.trans hc1⟩

/-- Sharing a block is visible in the free store: a `pop` through an object that shares the
block of `obj_o` destroys the top element of `obj_o`, and a `push` through a full object
that shares it releases the block, so that `obj_o` has no element left to read. -/
theorem store_shared_block_is_seen :
    elems two_blocks obj_o = [some 3, some 4] ∧
      (pop int_env 0 two_blocks obj_o).final?.map (fun st => elems st.1 obj_o) =
        some [some 3, none] ∧
      (push int_env 2 two_blocks { buf_ := 1, size_ := 2, used_ := 2 } 5).final?.map
          (fun st => elems st.1 obj_o) = some [none, none] :=
  ⟨rfl, rfl, rfl⟩

end InStore

namespace MyStack

variable {α : Type}

/-! ## The claims -/

/-- C1: the code does not return the pushed values in reverse order.  Pushing 1 and then 2
onto a default-constructed stack and then calling top and pop until the stack is empty
reads the single value 2: the second push grows the buffer and the value 1 is not carried
over, so the values read are not the reverse `[2, 1]` of the values pushed. -/
theorem C1_drain_after_two_pushes (fuel : Nat) :
    (push_then_drain int_env (fuel + 2) [1, 2]).value? = some [2] ∧
      (push_then_drain int_env (fuel + 2) [1, 2]).value? ≠ some ([1, 2].reverse) := by
  have h : (push_then_drain int_env (fuel + 2) [1, 2]).value? = some [2] := rfl
  exact ⟨h, by rw [h]; decide⟩

/-- C2: the code does not keep one element per push.  After pushing 1 and then 2 onto a
default-constructed stack, `size()` is 1 (and the capacity is 3), not 2. -/
theorem C2_size_after_two_pushes (fuel : Nat) :
    (push_all int_env (fuel + 2) default [1, 2]).returned?.map size = some 1 ∧
      (push_all int_env (fuel + 2) default [1, 2]).returned?.map capacity = some 3 ∧
      (push_all int_env (fuel + 2) default [1, 2]).returned?.map elems = some [some 2] :=
  ⟨rfl, rfl, rfl⟩

/-- C3: for every stack with `used_ <= size_` and every value `x`, when the allocation of
the growth branch succeeds (it is only needed if the stack is full) and copying `x`
yields `x`, `push(x)` returns, the stack is then non-empty, slot `size - 1` holds `x`, and
`top()` returns `x` and leaves the stack as it is.  This covers the branch with a free
slot and the growth branch. -/
theorem C3_top_after_push (env : Env α) (fuel : Nat) (s : MyStack α) (x : α)
    (hinv : s.used_ ≤ s.size_)
    (halloc : s.used_ = s.size_ → env.alloc ((s.size_ * 2 + 1) % SIZE_MOD) = true)
    (hcopy : env.copy x = some x) :
    ∃ s', push env (fuel + 2) s x = .ok s' () ∧ empty s' = false ∧
      s'.buf_ (size s' - 1) = some x ∧ top env s' = .ok s' x := by
  rcases Nat.eq_or_lt_of_le hinv with heq | hlt
  · refine ⟨_, push_full env fuel s x heq (halloc heq), rfl, ?_, ?_⟩
    · simp [size, construct_at]
    · simp [top, empty, construct_at, hcopy]
  · refine ⟨_, push_spare env (fuel + 1) s x hlt, ?_, ?_, ?_⟩
    · simp [empty]
    · simp [size, construct_at]
    · simp [top, empty, construct_at, hcopy]

theorem C3_top_after_push_witness :
    one_of_one.used_ ≤ one_of_one.size_ ∧
      ∃ s', push int_env 2 one_of_one 9 = .ok s' () ∧ empty s' = false ∧
        s'.buf_ (size s' - 1) = some 9 ∧ top int_env s' = .ok s' 9 :=
  ⟨Nat.le_refl 1, C3_top_after_push int_env 0 one_of_one 9 (Nat.le_refl 1) (fun _ => rfl) rfl⟩

/-- C4: in its shrink branch `pop()` does not keep the elements below the top.  On the
stack built by `MyStack<int> s(8); s.push(7);` (capacity 8, size 1) `pop()` returns
normally with capacity 4 and with `used_` wrapped around to `2 ^ 64 - 1`, not with size 0:
the replacement buffer received no element, so the decrement is applied to a live count
of 0. -/
theorem C4_pop_in_shrink_branch (fuel : Nat) :
    size one_of_eight = 1 ∧ capacity one_of_eight = 8 ∧
      (pop int_env fuel one_of_eight).returned?.map size = some (2 ^ 64 - 1) ∧
      (pop int_env fuel one_of_eight).returned?.map capacity = some 4 ∧
      (pop_shrink int_env fuel one_of_eight).returned?.map size = some 0 := by
  cases fuel <;> exact ⟨rfl, rfl, rfl, rfl, rfl⟩

/-- C5: for every stack with `size() == 0`, whatever its capacity, `pop()` and `top()`
each throw the `runtime_error` of the empty container, and the stack they leave behind is
the stack they were called on (size 0, same capacity, same buffer). -/
theorem C5_pop_top_on_empty (env : Env α) (fuel : Nat) (s : MyStack α) (h : size s = 0) :
    pop env fuel s = .throws s (.runtime_error "Attempt to pop empty stack") ∧
      top env s = .throws s (.runtime_error "Attempt to top empty stack") := by
  have h0 : s.used_ = 0 := h
  constructor
  · simp [pop, empty, h0]
  · simp [top, empty, h0]

theorem C5_pop_top_on_empty_witness :
    size ({ buf_ := fresh_block, size_ := 4, used_ := 0 } : MyStack Nat) = 0 ∧
      (pop int_env 0 ({ buf_ := fresh_block, size_ := 4, used_ := 0 } : MyStack Nat) =
          .throws { buf_ := fresh_block, size_ := 4, used_ := 0 }
            (.runtime_error "Attempt to pop empty stack") ∧
        top int_env ({ buf_ := fresh_block, size_ := 4, used_ := 0 } : MyStack Nat) =
          .throws { buf_ := fresh_block, size_ := 4, used_ := 0 }
            (.runtime_error "Attempt to top empty stack")) :=
  ⟨rfl, C5_pop_top_on_empty int_env 0 { buf_ := fresh_block, size_ := 4, used_ := 0 } rfl⟩

/-- C6: for every pair of stacks `copy` and `original` that do not share a block, when the
buffer for the duplicate is allocated and every element of `original` is live and is copied
to an equal value, the copy assignment `copy = original` returns, and afterwards
`copy.size()` is `original.size()` and every slot `i < size` of `copy` holds what slot `i`
of `original` holds.  The block of `original` is as it was before the assignment, and it is
still as it was after a `push` on `copy` (whether that `push` returns or throws
`bad_alloc`), after a `pop` on `copy`, and after any sequence of such calls: `original`
keeps its size and its elements. -/
theorem C6_copy_assign_independent (env : Env α) (fuel : Nat) (h : Heap α)
    (copy original : InStore.MyStack)
    (hnull : h.cell 0 = none)
    (hvo : original.buf_ < h.next) (hvc : copy.buf_ < h.next)
    (hdisj : copy.buf_ = 0 ∨ copy.buf_ ≠ original.buf_)
    (halloc : original.used_ ≠ 0 → env.alloc original.used_ = true)
    (hdup : ∀ i, i < original.used_ →
      ∃ v, Heap.load h original.buf_ i = some v ∧ env.copy v = some v) :
    ∃ h' c, InStore.copy_assign env h copy original = .ok (h', c) () ∧
      InStore.size c = InStore.size original ∧
      (∀ i, i < InStore.size original →
        Heap.load h' c.buf_ i = Heap.load h original.buf_ i) ∧
      InStore.elems h' c = InStore.elems h original ∧
      h'.cell original.buf_ = h.cell original.buf_ ∧
      InStore.elems h' original = InStore.elems h original ∧
      (∀ x, ∃ st, (InStore.push env (fuel + 2) h' c x).final? = some st ∧
        st.1.cell original.buf_ = h.cell original.buf_ ∧
        InStore.elems st.1 original = InStore.elems h original) ∧
      (∃ st, (InStore.pop env fuel h' c).final? = some st ∧
        st.1.cell original.buf_ = h.cell original.buf_ ∧
        InStore.elems st.1 original = InStore.elems h original) ∧
      ∀ ops st, InStore.mutate env fuel (h', c) ops = some st →
        st.1.cell original.buf_ = h.cell original.buf_ ∧
        InStore.elems st.1 original = InStore.elems h original := by
  obtain ⟨h', c, hres, hu, hs, hnx, hld, hrc, hc0, hsep, hpop⟩ :=
    InStore.store_copy_assign_ok env h copy original hnull hvo hvc hdisj halloc hdup
  have hfull : c.used_ = c.size_ := hu.trans hs.symm
  have hpush : original.buf_ ≠ c.buf_ ∨ (c.buf_ = 0 ∧ h'.cell 0 = none) := by
    rcases hsep with h1 | h1
    · exact Or.inr ⟨h1, hc0⟩
    · exact Or.inl (Ne.symm h1)
  have hapart : InStore.apart original.buf_ h' c := ⟨hc0, Nat.lt_of_lt_of_le hvo hnx, hsep⟩
  refine ⟨h', c, hres, hu, hld, ?_, hrc, InStore.store_elems_congr h' h original hrc,
    ?_, ?_, ?_⟩
  · unfold InStore.elems
    rw [hu]
    apply List.map_congr_left
    intro i hi
    exact hld i (List.mem_range.mp hi)
  · intro x
    obtain ⟨st, hst, hfr⟩ := InStore.store_push_full_final env fuel h' c x hfull
    have hc := (hfr original.buf_ (Nat.lt_of_lt_of_le hvo hnx) hpush).trans hrc
    exact ⟨st, hst, hc, InStore.store_elems_congr st.1 h original hc⟩
  · obtain ⟨st, hst, hfr⟩ := InStore.store_pop_full_final env fuel h' c hfull
    have hc := (hfr original.buf_ hpop).trans hrc
    exact ⟨st, hst, hc, InStore.store_elems_congr st.1 h original hc⟩
  · intro ops st hm
    obtain ⟨_, hfr⟩ := InStore.store_mutate_frame env fuel original.buf_ ops (h', c) st hapart hm
    have hc := hfr.trans hrc
    exact ⟨hc, InStore.store_elems_congr st.1 h original hc⟩

theorem C6_copy_assign_independent_witness :
    two_blocks.cell 0 = none ∧ obj_o.buf_ < two_blocks.next ∧ obj_c.buf_ < two_blocks.next ∧
      (obj_c.buf_ = 0 ∨ obj_c.buf_ ≠ obj_o.buf_) ∧
      InStore.elems two_blocks obj_o = [some 3, some 4] ∧
      ∃ h' c, InStore.copy_assign int_env two_blocks obj_c obj_o = .ok (h', c) () ∧
        InStore.size c = InStore.size obj_o ∧
        (∀ i, i < InStore.size obj_o →
          Heap.load h' c.buf_ i = Heap.load two_blocks obj_o.buf_ i) ∧
        InStore.elems h' c = InStore.elems two_blocks obj_o ∧
        h'.cell obj_o.buf_ = two_blocks.cell obj_o.buf_ ∧
        InStore.elems h' obj_o = InStore.elems two_blocks obj_o ∧
        (∀ x, ∃ st, (InStore.push int_env (2 + 2) h' c x).final? = some st ∧
          st.1.cell obj_o.buf_ = two_blocks.cell obj_o.buf_ ∧
          InStore.elems st.1 obj_o = InStore.elems two_blocks obj_o) ∧
        (∃ st, (InStore.pop int_env 2 h' c).final? = some st ∧
          st.1.cell obj_o.buf_ = two_blocks.cell obj_o.buf_ ∧
          InStore.elems st.1 obj_o = InStore.elems two_blocks obj_o) ∧
        ∀ ops st, InStore.mutate int_env 2 (h', c) ops = some st →
          st.1.cell obj_o.buf_ = two_blocks.cell obj_o.buf_ ∧
          InStore.elems st.1 obj_o = InStore.elems two_blocks obj_o :=
  ⟨rfl, by decide, by decide, Or.inr (by decide), rfl,
    C6_copy_assign_independent int_env 2 two_blocks obj_c obj_o rfl (by decide) (by decide)
      (Or.inr (by decide)) (fun _ => rfl) (by
        intro i hi
        have h2 : i < 2 := hi
        interval_cases i
        · exact ⟨3, rfl, rfl⟩
        · exact ⟨4, rfl, rfl⟩)⟩

/-- C7: for every pair of stacks `a` and `b` and every copy constructor that may throw,
when the buffer for the duplicate is allocated, the elements of `b` are live and the copy
of some element of `b` throws, the copy assignment `a = b` ends with that failure reaching
the caller and leaves `a` exactly as it was (same size, same buffer contents). -/
theorem C7_copy_assign_failure (env : Env α) (a b : MyStack α)
    (halloc : env.alloc b.used_ = true)
    (hlive : ∀ i, i < b.used_ → ∃ v, b.buf_ i = some v)
    (hfail : ∃ i, i < b.used_ ∧ ∃ v, b.buf_ i = some v ∧ env.copy v = none) :
    copy_assign env a b = .throws a .copy_failure := by
  obtain ⟨i, hi, v, hv, hc⟩ := hfail
  have h0 : b.used_ ≠ 0 := by omega
  have hloop :=
    copy_loop_throws env b hlive b.used_
      { buf_ := fresh_block, size_ := b.used_, used_ := 0 } (Nat.zero_add _)
      ⟨i, Nat.zero_le i, hi, v, hv, hc⟩
  simp [copy_assign, copy_ctor, MyStackBuf.ctor, h0, halloc, hloop]

theorem C7_copy_assign_failure_witness :
    throwing_env.alloc two_of_three.used_ = true ∧
      (∃ i, i < two_of_three.used_ ∧
        ∃ v, two_of_three.buf_ i = some v ∧ throwing_env.copy v = none) ∧
      copy_assign throwing_env one_of_eight two_of_three = .throws one_of_eight .copy_failure :=
  ⟨rfl, ⟨1, by decide, 4, rfl, rfl⟩,
    C7_copy_assign_failure throwing_env one_of_eight two_of_three rfl two_of_three_live
      ⟨1, by decide, 4, rfl, rfl⟩⟩

/-- C8: the overload `push(const T&)` does not propagate the allocation failure.  It is
declared `noexcept` and forwards to `push(T&&)`, so on the full stack `one_of_one`, with a
storage provider that refuses the request, the `bad_alloc` thrown by the growth branch
cannot leave the call: no exception reaches the caller, the program is stopped. -/
theorem C8_push_lvalue_bad_alloc_not_propagated :
    one_of_one.used_ = one_of_one.size_ ∧
      oom_env.alloc ((one_of_one.size_ * 2 + 1) % SIZE_MOD) = false ∧
      (push_copy oom_env 2 one_of_one 5).propagates = false ∧
      ¬ ∃ e, push_copy oom_env 2 one_of_one 5 = .throws one_of_one e := by
  have h : push_copy oom_env 2 one_of_one 5 = .aborted := rfl
  refine ⟨rfl, rfl, rfl, ?_⟩
  rintro ⟨e, he⟩
  rw [h] at he
  cases he

/-- The sibling overload `push(T&&)` does what is expected of `push`: for every stack with
`used_ == size_` and every value, if the allocation of the grown replacement buffer fails,
the call ends with `bad_alloc` reaching the caller and leaves the stack exactly as it was
(size, capacity, buffer). -/
theorem C8_push_rvalue_bad_alloc (env : Env α) (fuel : Nat) (s : MyStack α) (x : α)
    (hfull : size s = capacity s)
    (halloc : env.alloc ((capacity s * 2 + 1) % SIZE_MOD) = false) :
    push env (fuel + 1) s x = .throws s .bad_alloc :=
  push_full_bad_alloc env fuel s x hfull halloc

theorem C8_push_rvalue_bad_alloc_witness :
    size one_of_one = capacity one_of_one ∧
      oom_env.alloc ((capacity one_of_one * 2 + 1) % SIZE_MOD) = false ∧
      push oom_env 1 one_of_one 5 = .throws one_of_one .bad_alloc :=
  ⟨rfl, rfl, C8_push_rvalue_bad_alloc oom_env 0 one_of_one 5 rfl rfl⟩

/-- C9, as stated, fails when `moved` is not empty beforehand: after
`moved = std::move(original)` with `moved` holding one element and `original`
default-constructed, `original` has size 1 and capacity 1 and `original.empty()` is
false. -/
theorem C9_source_not_emptied :
    size (move_assign one_of_one (default : MyStack Nat)).2 = 1 ∧
      capacity (move_assign one_of_one (default : MyStack Nat)).2 = 1 ∧
      empty (move_assign one_of_one (default : MyStack Nat)).2 = false ∧
      elems (move_assign one_of_one (default : MyStack Nat)).2 = [some 7] :=
  ⟨rfl, rfl, rfl, rfl⟩

/-- C9, amended: for every pair of stacks `moved` and `original`, after
`moved = std::move(original)` the stack `moved` is what `original` was (capacity, size and
all elements in the same order), and `original` has the size and capacity that `moved`
had, so `original.empty()` is true exactly when `moved` was empty beforehand. -/
theorem C9_move_assign (moved original : MyStack α) :
    (move_assign moved original).1 = original ∧
      elems (move_assign moved original).1 = elems original ∧
      size (move_assign moved original).2 = size moved ∧
      capacity (move_assign moved original).2 = capacity moved ∧
      (empty (move_assign moved original).2 = true ↔ size moved = 0) := by
  refine ⟨rfl, rfl, rfl, rfl, ?_⟩
  simp [empty, size, move_assign, MyStackBuf.move_assign]

/-- C10: for every stack `s`, the stack move-constructed from `s` has the capacity, the
size and the elements (same slots, same order) that `s` had, and `s` is left in the empty
state: size 0, capacity 0, null buffer, `empty()` true. -/
theorem C10_move_ctor (s : MyStack α) :
    (move_ctor s).1 = s ∧
      capacity (move_ctor s).1 = capacity s ∧
      size (move_ctor s).1 = size s ∧
      elems (move_ctor s).1 = elems s ∧
      size (move_ctor s).2 = 0 ∧
      capacity (move_ctor s).2 = 0 ∧
      (move_ctor s).2.buf_ = nullptr ∧
      empty (move_ctor s).2 = true :=
  ⟨rfl, rfl, rfl, rfl, rfl, rfl, rfl, rfl⟩

/-- C11: for every stack `src`, when the buffer for the duplicate is allocated and every
element of `src` is live and is copied to an equal value, the stack copy-constructed from
`src` has capacity `src.size()` (not `src.capacity()`), size `src.size()`, and in every
slot `i < size` what slot `i` of `src` holds.  `src` is taken by reference to const. -/
theorem C11_copy_ctor (env : Env α) (src : MyStack α)
    (halloc : src.used_ ≠ 0 → env.alloc src.used_ = true)
    (hdup : ∀ i, i < src.used_ → ∃ v, src.buf_ i = some v ∧ env.copy v = some v) :
    ∃ c, copy_ctor env src = .ok () c ∧ capacity c = size src ∧ size c = size src ∧
      (∀ i, i < size src → c.buf_ i = src.buf_ i) ∧ elems c = elems src := by
  obtain ⟨t, ht, hu, hs, hpt⟩ := copy_ctor_ok env src halloc hdup
  refine ⟨t, ht, hs, hu, hpt, ?_⟩
  unfold elems
  rw [hu]
  apply List.map_congr_left
  intro i hi
  exact hpt i (List.mem_range.mp hi)

theorem C11_copy_ctor_witness :
    (two_of_three.used_ ≠ 0 → int_env.alloc two_of_three.used_ = true) ∧
      capacity two_of_three = 3 ∧
      ∃ c, copy_ctor int_env two_of_three = .ok () c ∧ capacity c = 2 ∧ size c = 2 ∧
        (∀ i, i < 2 → c.buf_ i = two_of_three.buf_ i) ∧ elems c = elems two_of_three :=
  ⟨fun _ => rfl, rfl, C11_copy_ctor int_env two_of_three (fun _ => rfl) two_of_three_dup⟩

/-- C14, as stated, fails: on the stack with capacity 8 and size 4 built by
`MyStack<int> s(8)` and four pushes, `pop()` does not shrink, because `4 < 8 / 2` is false;
afterwards the capacity is 8, not 4 (the size is 3). -/
theorem C14_no_shrink_at_half :
    capacity four_of_eight = 8 ∧ size four_of_eight = 4 ∧
      (pop int_env 2 four_of_eight).returned?.map capacity = some 8 ∧
      (pop int_env 2 four_of_eight).returned?.map capacity ≠ some 4 ∧
      (pop int_env 2 four_of_eight).returned?.map size = some 3 ∧
      (pop int_env 2 four_of_eight).returned?.map elems = some [some 1, some 2, some 3] := by
  have h : (pop int_env 2 four_of_eight).returned?.map capacity = some 8 := rfl
  refine ⟨rfl, rfl, h, ?_, rfl, rfl⟩
  rw [h]
  decide

/-- C14, amended: for every stack with capacity 8 and size 4, one `pop()` does not take the
shrink block (the test is `used_ < size_ / 2` on the size before the removal, and `4 < 4`
is false): `pop()` returns, and afterwards the capacity is still 8 and the size is 3. -/
theorem C14_pop_at_half_keeps_capacity (env : Env α) (fuel : Nat) (s : MyStack α)
    (hcap : capacity s = 8) (hsize : size s = 4) :
    ∃ s', pop env fuel s = .ok s' () ∧ capacity s' = 8 ∧ size s' = 3 := by
  have hc : s.size_ = 8 := hcap
  have hu : s.used_ = 4 := hsize
  have hne : s.used_ ≠ 0 := by omega
  have hk : ¬ (s.size_ ≠ 0 ∧ s.used_ < s.size_ / 2) := by omega
  have h3 : (4 + SIZE_MOD - 1) % SIZE_MOD = 3 := by decide
  obtain ⟨s', hs', hsz, hus, _⟩ := pop_keep_fields env fuel s hne hk
  refine ⟨s', hs', hsz.trans hc, ?_⟩
  rewrite [hu] at hus
  exact hus.trans h3

theorem C14_pop_at_half_keeps_capacity_witness :
    capacity four_of_eight = 8 ∧ size four_of_eight = 4 ∧
      ∃ s', pop int_env 0 four_of_eight = .ok s' () ∧ capacity s' = 8 ∧ size s' = 3 :=
  ⟨rfl, rfl, C14_pop_at_half_keeps_capacity int_env 0 four_of_eight rfl rfl⟩

/-- C15: for every non-empty stack with capacity `c` and size `n` before the removal, when
the half-sized buffer of the shrink block is allocated (it is only needed if the block is
taken), `pop()` returns and the capacity afterwards is `c / 2` if `c > 0` and `n < c / 2`,
and `c` otherwise; the test uses the size before the decrement. -/
theorem C15_capacity_after_pop (env : Env α) (fuel : Nat) (s : MyStack α)
    (hne : size s ≠ 0)
    (halloc : capacity s ≠ 0 ∧ size s < capacity s / 2 → env.alloc (capacity s / 2) = true) :
    ∃ s', pop env fuel s = .ok s' () ∧
      capacity s' =
        if capacity s ≠ 0 ∧ size s < capacity s / 2 then capacity s / 2 else capacity s := by
  by_cases hc : capacity s ≠ 0 ∧ size s < capacity s / 2
  · refine ⟨_, pop_shrunk env fuel s hne hc (halloc hc), ?_⟩
    rw [if_pos hc]
    rfl
  · refine ⟨_, pop_keep env fuel s hne hc, ?_⟩
    rw [if_neg hc]
    rfl

theorem C15_capacity_after_pop_witness :
    size one_of_eight ≠ 0 ∧
      ∃ s', pop int_env 0 one_of_eight = .ok s' () ∧
        capacity s' =
          if capacity one_of_eight ≠ 0 ∧ size one_of_eight < capacity one_of_eight / 2
          then capacity one_of_eight / 2 else capacity one_of_eight :=
  ⟨by decide, C15_capacity_after_pop int_env 0 one_of_eight (by decide) (fun _ => rfl)⟩

/-- C16: for every stack with `used_ <= size_` whose grown capacity `2 * c + 1` fits
`size_t`, when the growth allocation succeeds, `push` returns and the capacity afterwards
is `2 * c + 1` if the stack was full (`size == capacity == c`) and is unchanged if it had a
free slot.  In particular, on a default-constructed stack (capacity 0) the first push
yields capacity 1 and the second push yields capacity 3. -/
theorem C16_capacity_after_push (env : Env α) (fuel : Nat) (s : MyStack α) (x y : α)
    (hinv : size s ≤ capacity s)
    (hfit : capacity s * 2 + 1 < SIZE_MOD)
    (halloc : size s = capacity s → env.alloc (capacity s * 2 + 1) = true)
    (h1 : env.alloc 1 = true) (h3 : env.alloc 3 = true) :
    (∃ s', push env (fuel + 2) s x = .ok s' () ∧
        capacity s' = if size s = capacity s then 2 * capacity s + 1 else capacity s) ∧
      ∃ s1 s2, push env (fuel + 2) default x = .ok s1 () ∧ capacity s1 = 1 ∧
        push env (fuel + 2) s1 y = .ok s2 () ∧ capacity s2 = 3 := by
  have hmod : (s.size_ * 2 + 1) % SIZE_MOD = s.size_ * 2 + 1 := Nat.mod_eq_of_lt hfit
  constructor
  · rcases Nat.eq_or_lt_of_le hinv with heq | hlt
    · have ha : env.alloc ((s.size_ * 2 + 1) % SIZE_MOD) = true := by
        rw [hmod]
        exact halloc heq
      refine ⟨_, push_full env fuel s x heq ha, ?_⟩
      rw [if_pos heq]
      show (s.size_ * 2 + 1) % SIZE_MOD = 2 * s.size_ + 1
      rw [hmod]
      omega
    · refine ⟨_, push_spare env (fuel + 1) s x hlt, ?_⟩
      rw [if_neg (Nat.ne_of_lt hlt)]
      rfl
  · have e1 : (0 * 2 + 1) % SIZE_MOD = 1 := by decide
    have e3 : (1 * 2 + 1) % SIZE_MOD = 3 := by decide
    have p1 := push_full env fuel
      ({ buf_ := nullptr, size_ := 0, used_ := 0 } : MyStack α) x rfl
      (by simp only [e1]; exact h1)
    have p2 := push_full env fuel
      ({ buf_ := construct_at fresh_block 0 x, size_ := 1, used_ := 1 } : MyStack α) y rfl
      (by simp only [e3]; exact h3)
    simp only [e1] at p1
    simp only [e3] at p2
    exact ⟨_, _, p1, rfl, p2, rfl⟩

theorem C16_capacity_after_push_witness :
    size one_of_one ≤ capacity one_of_one ∧ capacity one_of_one * 2 + 1 < SIZE_MOD ∧
      (∃ s', push int_env 2 one_of_one 9 = .ok s' () ∧
          capacity s' =
            if size one_of_one = capacity one_of_one then 2 * capacity one_of_one + 1
            else capacity one_of_one) ∧
        ∃ s1 s2, push int_env 2 default 9 = .ok s1 () ∧ capacity s1 = 1 ∧
          push int_env 2 s1 5 = .ok s2 () ∧ capacity s2 = 3 :=
  ⟨by decide, by decide,
    C16_capacity_after_push int_env 0 one_of_one 9 5 (by decide) (by decide) (fun _ => rfl)
      rfl rfl⟩

/-- C13: the code does not keep `used_ <= size_` across a `pop()` that takes the shrink
block.  The stack reached from a default-constructed one by five pushes has capacity 7 and
size 1 and satisfies the invariant; its `pop()` swaps in a replacement with capacity 3
and live count 0 and then decrements that live count, which wraps around to `2 ^ 64 - 1`,
so the stack it returns has `used_ > size_`. -/
theorem C13_invariant_lost_by_shrinking_pop (fuel : Nat) :
    size one_of_seven ≤ capacity one_of_seven ∧
      (pop_shrink int_env fuel one_of_seven).returned?.map size = some 0 ∧
      (pop int_env fuel one_of_seven).returned?.map size = some (2 ^ 64 - 1) ∧
      (pop int_env fuel one_of_seven).returned?.map capacity = some 3 ∧
      (pop int_env fuel one_of_seven).returned?.map
          (fun s => decide (size s ≤ capacity s)) = some false := by
  cases fuel <;> exact ⟨by decide, rfl, rfl, rfl, rfl⟩

/-- C17: for every stack with `size < capacity` and every value `x`, `push(x)` returns,
places `x` in slot `size`, increases the size by exactly 1, and leaves the capacity and
every slot `0 .. size - 1` as they were, so the elements afterwards are the previous
elements followed by `x`. -/
theorem C17_push_with_free_slot (env : Env α) (fuel : Nat) (s : MyStack α) (x : α)
    (h : size s < capacity s) :
    ∃ s', push env (fuel + 1) s x = .ok s' () ∧ s'.buf_ (size s) = some x ∧
      size s' = size s + 1 ∧ capacity s' = capacity s ∧
      (∀ i, i < size s → s'.buf_ i = s.buf_ i) ∧ elems s' = elems s ++ [some x] := by
  obtain ⟨s', hs', hsz, hus, hb⟩ := push_spare_fields env fuel s x h
  have htop : s'.buf_ s.used_ = some x := by
    rw [hb]
    exact Function.update_same _ _ _
  have hlow : ∀ i, i < s.used_ → s'.buf_ i = s.buf_ i := by
    intro i hi
    rw [hb]
    exact Function.update_noteq (Nat.ne_of_lt hi) _ _
  refine ⟨s', hs', htop, hus, hsz, hlow, ?_⟩
  unfold elems
  rw [hus, List.range_succ, List.map_append, List.map_singleton, htop]
  congr 1
  apply List.map_congr_left
  intro i hi
  exact hlow i (List.mem_range.mp hi)

theorem C17_push_with_free_slot_witness :
    size two_of_three < capacity two_of_three ∧
      ∃ s', push int_env 1 two_of_three 9 = .ok s' () ∧ s'.buf_ (size two_of_three) = some 9 ∧
        size s' = size two_of_three + 1 ∧ capacity s' = capacity two_of_three ∧
        (∀ i, i < size two_of_three → s'.buf_ i = two_of_three.buf_ i) ∧
        elems s' = elems two_of_three ++ [some 9] :=
  ⟨by decide, C17_push_with_free_slot int_env 0 two_of_three 9 (by decide)⟩

/-- C18: for every stack with `size == capacity == c` whose grown capacity `2 * c + 1`
fits `size_t`, and every value `x`, when the grown buffer is allocated, `push(x)` returns a
stack of capacity `2 * c + 1` whose size is exactly 1 and whose only element is `x`:
`append` on the fresh temporary returns at once, with the temporary still empty and the
old stack untouched, because its loop runs up to the receiver's own live count, which
is 0. -/
theorem C18_push_when_full_keeps_only_new (env : Env α) (fuel : Nat) (s : MyStack α) (x : α)
    (hfull : size s = capacity s)
    (hfit : capacity s * 2 + 1 < SIZE_MOD)
    (halloc : env.alloc (capacity s * 2 + 1) = true) :
    (∃ s', push env (fuel + 2) s x = .ok s' () ∧ capacity s' = 2 * capacity s + 1 ∧
        size s' = 1 ∧ elems s' = [some x]) ∧
      append env fuel { buf_ := fresh_block, size_ := capacity s * 2 + 1, used_ := 0 } s =
        .ok ({ buf_ := fresh_block, size_ := capacity s * 2 + 1, used_ := 0 }, s) () := by
  have hmod : (s.size_ * 2 + 1) % SIZE_MOD = s.size_ * 2 + 1 := Nat.mod_eq_of_lt hfit
  have ha : env.alloc ((s.size_ * 2 + 1) % SIZE_MOD) = true := by
    rw [hmod]
    exact halloc
  obtain ⟨s', hs', hsz, hus, hb⟩ := push_full_fields env fuel s x hfull ha
  constructor
  · refine ⟨s', hs', ?_, hus, ?_⟩
    · show s'.size_ = 2 * s.size_ + 1
      rw [hsz, hmod]
      omega
    · unfold elems
      rw [hus, hb]
      rfl
  · exact append_loop_done env fuel _ s 0 (Nat.lt_irrefl 0)

theorem C18_push_when_full_keeps_only_new_witness :
    size two_of_three ≠ capacity two_of_three ∧ size one_of_one = capacity one_of_one ∧
      ((∃ s', push int_env 2 one_of_one 9 = .ok s' () ∧ capacity s' = 2 * capacity one_of_one + 1 ∧
          size s' = 1 ∧ elems s' = [some 9]) ∧
        append int_env 0
            { buf_ := fresh_block, size_ := capacity one_of_one * 2 + 1, used_ := 0 } one_of_one =
          .ok ({ buf_ := fresh_block, size_ := capacity one_of_one * 2 + 1, used_ := 0 },
            one_of_one) ()) :=
  ⟨by decide, rfl,
    C18_push_when_full_keeps_only_new int_env 0 one_of_one 9 rfl (by decide) rfl⟩

/-- C19: move assignment is an exchange of states: for every pair of stacks `a` and `b`,
after `a = std::move(b)` the stack `a` is what `b` was (capacity, size and elements) and
`b` is what `a` was, so `b` is in the empty state afterwards exactly when `a` was in the
empty state before. -/
theorem C19_move_assign_exchanges (a b : MyStack α) :
    (move_assign a b).1 = b ∧ (move_assign a b).2 = a ∧
      capacity (move_assign a b).1 = capacity b ∧ size (move_assign a b).1 = size b ∧
      elems (move_assign a b).1 = elems b ∧
      capacity (move_assign a b).2 = capacity a ∧ size (move_assign a b).2 = size a ∧
      elems (move_assign a b).2 = elems a ∧
      ((size (move_assign a b).2 = 0 ∧ capacity (move_assign a b).2 = 0) ↔
        (size a = 0 ∧ capacity a = 0)) :=
  ⟨rfl, rfl, rfl, rfl, rfl, rfl, rfl, rfl, Iff.rfl⟩

/-- C12: the code neither appends the elements of `other` nor empties it.  After
`s.append(other)` with `s` the one-element stack `one_of_one` and `other` the two-element
stack `two_of_three`, `s` has size 1 (not 3) and holds only the bottom element of `other`,
and `other` still has size 2; with `s` default-constructed nothing is appended at all and
`other` keeps its element. -/
theorem C12_append_neither_concatenates_nor_empties :
    (append int_env 3 one_of_one two_of_three).returned?.map (fun p => elems p.1) =
        some [some 3] ∧
      (append int_env 3 one_of_one two_of_three).returned?.map (fun p => size p.1) ≠
        some (size one_of_one + size two_of_three) ∧
      (append int_env 3 one_of_one two_of_three).returned?.map (fun p => empty p.2) =
        some false ∧
      (append int_env 3 one_of_one two_of_three).returned?.map (fun p => size p.2) = some 2 ∧
      (append int_env 3 default one_of_one).returned?.map (fun p => size p.1) = some 0 ∧
      (append int_env 3 default one_of_one).returned?.map (fun p => empty p.2) =
        some false := by
  have h : (append int_env 3 one_of_one two_of_three).returned?.map (fun p => size p.1) =
      some 1 := rfl
  refine ⟨rfl, ?_, rfl, rfl, rfl, rfl⟩
  rw [h]
  decide

/-- C20: for every stack reachable from a default-constructed stack (capacity 0) by a
finite sequence of `push` calls and `pop` calls that return, `capacity + 1` is a power of
two: growth maps `c` to `2 * c + 1` (modulo `2 ^ 64`, which keeps the form for
`c = 2 ^ 64 - 1`) and the shrink block maps `c` to `c / 2`. -/
theorem C20_capacity_plus_one_is_power_of_two (env : Env α) (s : MyStack α)
    (h : Reachable env s) : ∃ k, capacity s + 1 = 2 ^ k := by
  obtain ⟨k, _, hk⟩ := reachable_pow_form env s h
  exact ⟨k, hk⟩

theorem C20_capacity_plus_one_is_power_of_two_witness :
    Reachable int_env one_of_seven ∧ ∃ k, capacity one_of_seven + 1 = 2 ^ k :=
  have h1 : Reachable int_env one_of_one :=
    Reachable.push 2 default 7 one_of_one Reachable.init rfl
  have h2 : Reachable int_env ({ buf_ := construct_at fresh_block 0 2, size_ := 3, used_ := 1 }) :=
    Reachable.push 2 one_of_one 2 _ h1 rfl
  have h3 := Reachable.push 2 _ 3 _ h2 (push_spare int_env 1 _ 3 (by decide))
  have h4 := Reachable.push 2 _ 4 _ h3 (push_spare int_env 1 _ 4 (by decide))
  have h5 : Reachable int_env one_of_seven := Reachable.push 2 _ 5 one_of_seven h4 rfl
  ⟨h5, C20_capacity_plus_one_is_power_of_two int_env one_of_seven h5⟩

end MyStack

end ExceptionSafeStack
